import Mathlib

/-!
# Nullable `Int` and `Uint` (Go package `null`)

A shallow embedding of `int.go` and `uint.go`.  Byte slices are `List UInt8`; the Go
types `int` / `int64` are integers in `[-2^63, 2^63)` and `uint` / `uint64` are naturals
below `2^64` (64-bit platform), with every Go conversion written as an explicit wrap.
A method with a pointer receiver returns the receiver after the call together with the
returned error (`none` is Go's `nil` error).

The standard-library routines the two files call (`strconv.ParseInt`, `strconv.ParseUint`,
`strconv.FormatInt`, `strconv.FormatUint`, `json.Unmarshal` into an integer) are modelled
in the first sections.
-/

namespace null

/-! ## Machine integers -/

/-- Conversion of an integer to `uint64` / `uint`: reduction modulo `2^64`. -/
def wrapUint64 (z : ℤ) : ℕ := (z % 2 ^ 64).toNat

/-- Conversion of an integer to `int64` / `int`: the representative of `z` modulo `2^64`
in `[-2^63, 2^63)`. -/
def wrapInt64 (z : ℤ) : ℤ := (z + 2 ^ 63) % 2 ^ 64 - 2 ^ 63

/-- The largest `uint64`. -/
def maxUint64 : ℕ := 2 ^ 64 - 1

/-! ## Errors -/

/-- The errors that can come out of the modelled library calls. -/
inductive Error
  /-- Go's `*json.SyntaxError`: the input is not one well-formed JSON value. -/
  | SyntaxError
  /-- Go's `*json.UnmarshalTypeError`: a well-formed JSON value that does not fit the target. -/
  | UnmarshalTypeError
  /-- A JSON array, object, string or boolean offered to an integer target: a
  `*json.SyntaxError` when it is malformed and a `*json.UnmarshalTypeError` otherwise. -/
  | SyntaxOrTypeError
  /-- Go's `*strconv.NumError` wrapping `strconv.ErrSyntax`. -/
  | ErrSyntax
  /-- Go's `*strconv.NumError` wrapping `strconv.ErrRange`. -/
  | ErrRange
  deriving DecidableEq

/-! ## `strconv` -/

/-- ASCII decimal digit, `'0' <= c && c <= '9'`. -/
def isDigit (c : UInt8) : Bool := 48 ≤ c.toNat && c.toNat ≤ 57

/-- The loop of `strconv.ParseUint(s, 10, 64)` over the bytes of `s`, `n` being the
number accumulated so far.  Returns Go's pair `(value, err)`. -/
def parseUintLoop : List UInt8 → ℕ → ℕ × Option Error
  | [], n => (n, none)
  | c :: cs, n =>
    if !isDigit c then (0, some Error.ErrSyntax)
    else
      let d := c.toNat - 48
      -- `if n >= cutoff`: n*base overflows
      if n ≥ maxUint64 / 10 + 1 then (maxUint64, some Error.ErrRange)
      else
        let n10 := n * 10 % 2 ^ 64
        let n1 := (n10 + d) % 2 ^ 64
        -- `if n1 < n || n1 > maxVal`: n+d overflows
        if n1 < n10 ∨ n1 > maxUint64 then (maxUint64, some Error.ErrRange)
        else parseUintLoop cs n1

/-- Go's `strconv.ParseUint(s, 10, 0)` on a 64-bit platform (bit size 0 means `uint`). -/
def ParseUint (s : List UInt8) : ℕ × Option Error :=
  if s = [] then (0, some Error.ErrSyntax) else parseUintLoop s 0

/-- Go's `strconv.ParseInt(s, 10, 0)` and `strconv.ParseInt(s, 10, 64)` on a 64-bit
platform: an optional sign, then `ParseUint`, then the signed range check. -/
def ParseInt (s : List UInt8) : ℤ × Option Error :=
  match s with
  | [] => (0, some Error.ErrSyntax)
  | c :: t =>
    let neg : Bool := c.toNat = 45
    let s1 := if c.toNat = 43 ∨ c.toNat = 45 then t else s
    let r := ParseUint s1
    -- `if err != nil && err.(*NumError).Err != ErrRange`
    if r.2 ≠ none ∧ r.2 ≠ some Error.ErrRange then (0, r.2)
    else
      let un := r.1
      let cutoff : ℕ := 2 ^ 63
      if !neg ∧ un ≥ cutoff then ((cutoff : ℤ) - 1, some Error.ErrRange)
      else if neg ∧ un > cutoff then (-(cutoff : ℤ), some Error.ErrRange)
      else
        let n := wrapInt64 un
        (if neg then wrapInt64 (-n) else n, none)

/-- The decimal digits of `u`, most significant first, pushed in front of `acc`; one
digit per unit of fuel. -/
def digitsAux : ℕ → ℕ → List UInt8 → List UInt8
  | 0, _, acc => acc
  | f + 1, u, acc =>
    if u < 10 then UInt8.ofNat (48 + u) :: acc
    else digitsAux f (u / 10) (UInt8.ofNat (48 + u % 10) :: acc)

/-- Go's `formatBits` for base 10: the decimal digits of the 64-bit value `u` (at most
twenty of them), after a minus sign when `neg`. -/
def formatBits (u : ℕ) (neg : Bool) : List UInt8 :=
  let ds := digitsAux 20 u []
  if neg then 45 :: ds else ds

/-- Go's `strconv.FormatUint(u, 10)`. -/
def FormatUint (u : ℕ) : List UInt8 := formatBits u false

/-- Go's `strconv.FormatInt(i, 10)`: `formatBits(uint64(i), i < 0)`, which negates the
unsigned value (modulo `2^64`) when `i` is negative. -/
def FormatInt (i : ℤ) : List UInt8 :=
  let u := wrapUint64 i
  formatBits (if i < 0 then wrapUint64 (-(u : ℤ)) else u) (decide (i < 0))

/-! ## `encoding/json`: `json.Unmarshal` into an integer -/

/-- The scanner's `isSpace`: space, tab, carriage return, line feed. -/
def isSpace (c : UInt8) : Bool :=
  c.toNat = 32 || c.toNat = 9 || c.toNat = 13 || c.toNat = 10

/-- The states of the `encoding/json` scanner that a top-level number or `null` can
reach (`stateBeginValue`, `stateNeg`, `state0`, `state1`, `stateDot`, `stateDot0`,
`stateE`, `stateESign`, `stateE0`, `stateN`, `stateNu`, `stateNul`, `stateEndValue`,
`stateEndTop`). -/
inductive Scan
  | beginValue | neg | zero | one | dot | dot0 | e | eSign | e0 | n | nu | nul
  | endValue | endTop
  deriving DecidableEq

/-- Go's `stateEndTop`, also what `stateEndValue` does at top level: only white space may
follow the value. -/
def stepEndTop (c : UInt8) : Option Scan :=
  if isSpace c then some Scan.endTop else none

/-- Go's `state0`: after a leading `0`, or after the digits of the integer part. -/
def step0 (c : UInt8) : Option Scan :=
  if c.toNat = 46 then some Scan.dot
  else if c.toNat = 101 ∨ c.toNat = 69 then some Scan.e
  else stepEndTop c

/-- Go's `stateESign`: after `e` and an optional sign. -/
def stepESign (c : UInt8) : Option Scan :=
  if isDigit c then some Scan.e0 else none

/-- One step of the scanner; `none` is `scanError`.  A value that begins with a
bracket, a brace, a quote, `t` or `f` is handled by `decodeLiteral` before the scanner is consulted, so
`beginValue` has no transition for it here. -/
def step : Scan → UInt8 → Option Scan
  | Scan.beginValue, c =>
    if isSpace c then some Scan.beginValue
    else if c.toNat = 45 then some Scan.neg
    else if c.toNat = 48 then some Scan.zero
    else if c.toNat = 110 then some Scan.n
    else if 49 ≤ c.toNat ∧ c.toNat ≤ 57 then some Scan.one
    else none
  | Scan.neg, c =>
    if c.toNat = 48 then some Scan.zero
    else if 49 ≤ c.toNat ∧ c.toNat ≤ 57 then some Scan.one
    else none
  | Scan.one, c => if isDigit c then some Scan.one else step0 c
  | Scan.zero, c => step0 c
  | Scan.dot, c => if isDigit c then some Scan.dot0 else none
  | Scan.dot0, c =>
    if isDigit c then some Scan.dot0
    else if c.toNat = 101 ∨ c.toNat = 69 then some Scan.e
    else stepEndTop c
  | Scan.e, c => if c.toNat = 43 ∨ c.toNat = 45 then some Scan.eSign else stepESign c
  | Scan.eSign, c => stepESign c
  | Scan.e0, c => if isDigit c then some Scan.e0 else stepEndTop c
  | Scan.n, c => if c.toNat = 117 then some Scan.nu else none
  | Scan.nu, c => if c.toNat = 108 then some Scan.nul else none
  | Scan.nul, c => if c.toNat = 108 then some Scan.endValue else none
  | Scan.endValue, c => stepEndTop c
  | Scan.endTop, c => stepEndTop c

/-- The scanner run over a byte sequence from a given state. -/
def run : Scan → List UInt8 → Option Scan
  | s, [] => some s
  | s, c :: cs =>
    match step s c with
    | none => none
    | some s1 => run s1 cs

/-- Go's `scanner.eof`: the value is complete if the scanner is at `endTop`, or gets
there when fed one space. -/
def eofOk (s : Scan) : Bool :=
  decide (s = Scan.endTop) || decide (step s 32 = some Scan.endTop)

/-- The scanner, started in state `s`, reads all of `l` without error and `eof` then finds
a complete value. -/
def accepts (s : Scan) (l : List UInt8) : Bool :=
  match run s l with
  | none => false
  | some s1 => eofOk s1

/-- Go's `checkValid`, for inputs whose value is a number or `null`: the scanner is reset
to `stateBeginValue`, fed every byte, and asked for `eof`. -/
def checkValid (data : List UInt8) : Bool := accepts Scan.beginValue data

/-- The bytes that `rescanLiteral` takes as part of a number literal. -/
def isNumChar (c : UInt8) : Bool :=
  isDigit c || c.toNat = 46 || c.toNat = 101 || c.toNat = 69 || c.toNat = 43 || c.toNat = 45

/-- What `json.Unmarshal` hands to `literalStore` for an integer target. -/
inductive Literal
  | null
  | number (item : List UInt8)
  deriving DecidableEq

/-- The part of `json.Unmarshal(data, &x)` that does not depend on the integer type of
`x`: `checkValid`, skipping the leading white space, and the dispatch on the first byte
of the value.  Arrays, objects, strings and booleans are an error for an integer target
whether or not they are well formed. -/
def decodeLiteral (data : List UInt8) : Except Error Literal :=
  match data.dropWhile isSpace with
  | [] => Except.error Error.SyntaxError
  | c :: rest =>
    if c.toNat = 91 ∨ c.toNat = 123 ∨ c.toNat = 34 ∨ c.toNat = 116 ∨ c.toNat = 102 then
      Except.error Error.SyntaxOrTypeError
    else if !checkValid data then Except.error Error.SyntaxError
    else if c.toNat = 110 then Except.ok Literal.null
    else Except.ok (Literal.number ((c :: rest).takeWhile isNumChar))

/-- Go's `json.Unmarshal(data, &x)` for `x` of type `int64` holding `x` before the call:
the value of `x` afterwards and the error.  A JSON `null` leaves an integer untouched and
is no error; a number is stored when `ParseInt` accepts its text. -/
def UnmarshalInt64 (data : List UInt8) (x : ℤ) : ℤ × Option Error :=
  match decodeLiteral data with
  | Except.error err => (x, some err)
  | Except.ok Literal.null => (x, none)
  | Except.ok (Literal.number item) =>
    let r := ParseInt item
    if r.2 ≠ none then (x, some Error.UnmarshalTypeError) else (r.1, none)

/-- Go's `json.Unmarshal(data, &x)` for `x` of type `uint64`. -/
def UnmarshalUint64 (data : List UInt8) (x : ℕ) : ℕ × Option Error :=
  match decodeLiteral data with
  | Except.error err => (x, some err)
  | Except.ok Literal.null => (x, none)
  | Except.ok (Literal.number item) =>
    let r := ParseUint item
    if r.2 ≠ none then (x, some Error.UnmarshalTypeError) else (r.1, none)

/-! ## The package -/

/-- Modelled from the spec: the package variable `NullBytes`, declared in a file of the
package other than `int.go` and `uint.go`; the null token, the four bytes `null`. -/
def NullBytes : List UInt8 := [110, 117, 108, 108]

/-- A value handed to the database driver by `Value`: `nil` or an `int64`. -/
inductive DriverValue
  | nil
  | int64 (v : ℤ)
  deriving DecidableEq

/-- Go's `type Int struct`; the field `Int` is written `Int_`, since a field cannot share
the name of its structure. -/
structure Int where
  Int_ : ℤ
  Valid : Bool
  Set : Bool
  deriving DecidableEq

/-- Go's `type Uint struct`; the field `Uint` is written `Uint_`. -/
structure Uint where
  Uint_ : ℕ
  Valid : Bool
  Set : Bool
  deriving DecidableEq

/-! ### int.go -/

def NewInt (i : ℤ) (valid : Bool) : Int :=
  { Int_ := i, Valid := valid, Set := true }

def IntFrom (i : ℤ) : Int := NewInt i true

def IntFromPtr (i : Option ℤ) : Int :=
  match i with
  | none => NewInt 0 false
  | some v => NewInt v true

def Int.IsValid (i : Int) : Bool := i.Set && i.Valid

def Int.IsSet (i : Int) : Bool := i.Set

def Int.UnmarshalJSON (i : Int) (data : List UInt8) : Int × Option Error :=
  let i := { i with Set := true }
  if data = NullBytes then
    ({ i with Valid := false, Int_ := 0 }, none)
  else
    let r := UnmarshalInt64 data 0
    if r.2 ≠ none then (i, r.2)
    else ({ i with Int_ := wrapInt64 r.1, Valid := true }, none)

def Int.UnmarshalText (i : Int) (text : List UInt8) : Int × Option Error :=
  let i := { i with Set := true }
  if text.length = 0 then
    ({ i with Valid := false }, none)
  else
    let r := ParseInt text
    let i := { i with Valid := decide (r.2 = none) }
    let i := if i.Valid then { i with Int_ := wrapInt64 r.1 } else i
    (i, r.2)

def Int.MarshalJSON (i : Int) : List UInt8 × Option Error :=
  if !i.Valid then (NullBytes, none)
  else (FormatInt (wrapInt64 i.Int_), none)

def Int.MarshalText (i : Int) : List UInt8 × Option Error :=
  if !i.Valid then ([], none)
  else (FormatInt (wrapInt64 i.Int_), none)

def Int.SetValid (_i : Int) (n : ℤ) : Int :=
  { Int_ := n, Valid := true, Set := true }

def Int.Ptr (i : Int) : Option ℤ :=
  if !i.Valid then none else some i.Int_

def Int.IsZero (i : Int) : Bool := !i.Valid

/-- Go's `Int.Scan`; `value` is `none` for a nil interface, and `ConvertAssign` is the external
`convert.ConvertAssign(&i.Int, value)`: given the destination's current content and the
value, the destination's new content and the error. -/
def Int.Scan {α : Type} (ConvertAssign : ℤ → α → ℤ × Option Error) (i : Int)
    (value : Option α) : Int × Option Error :=
  match value with
  | none => ({ Int_ := 0, Valid := false, Set := false }, none)
  | some v =>
    let i := { i with Valid := true, Set := true }
    let r := ConvertAssign i.Int_ v
    ({ i with Int_ := r.1 }, r.2)

def Int.Value (i : Int) : DriverValue × Option Error :=
  if !i.Valid then (DriverValue.nil, none)
  else (DriverValue.int64 (wrapInt64 i.Int_), none)

/-! ### uint.go -/

def NewUint (i : ℕ) (valid : Bool) : Uint :=
  { Uint_ := i, Valid := valid, Set := true }

def UintFrom (i : ℕ) : Uint := NewUint i true

def UintFromPtr (i : Option ℕ) : Uint :=
  match i with
  | none => NewUint 0 false
  | some v => NewUint v true

def Uint.IsValid (u : Uint) : Bool := u.Set && u.Valid

def Uint.IsSet (u : Uint) : Bool := u.Set

def Uint.UnmarshalJSON (u : Uint) (data : List UInt8) : Uint × Option Error :=
  let u := { u with Set := true }
  if data = NullBytes then
    ({ u with Valid := false, Uint_ := 0 }, none)
  else
    let r := UnmarshalUint64 data 0
    if r.2 ≠ none then (u, r.2)
    else ({ u with Uint_ := r.1 % 2 ^ 64, Valid := true }, none)

def Uint.UnmarshalText (u : Uint) (text : List UInt8) : Uint × Option Error :=
  let u := { u with Set := true }
  if text.length = 0 then
    ({ u with Valid := false }, none)
  else
    let r := ParseUint text
    let u := { u with Valid := decide (r.2 = none) }
    let u := if u.Valid then { u with Uint_ := r.1 % 2 ^ 64 } else u
    (u, r.2)

def Uint.MarshalJSON (u : Uint) : List UInt8 × Option Error :=
  if !u.Valid then (NullBytes, none)
  else (FormatUint (u.Uint_ % 2 ^ 64), none)

def Uint.MarshalText (u : Uint) : List UInt8 × Option Error :=
  if !u.Valid then ([], none)
  else (FormatUint (u.Uint_ % 2 ^ 64), none)

def Uint.SetValid (_u : Uint) (n : ℕ) : Uint :=
  { Uint_ := n, Valid := true, Set := true }

def Uint.Ptr (u : Uint) : Option ℕ :=
  if !u.Valid then none else some u.Uint_

def Uint.IsZero (u : Uint) : Bool := !u.Valid

/-- Go's `Uint.Scan`, modelled as `Int.Scan` is. -/
def Uint.Scan {α : Type} (ConvertAssign : ℕ → α → ℕ × Option Error) (u : Uint)
    (value : Option α) : Uint × Option Error :=
  match value with
  | none => ({ Uint_ := 0, Valid := false, Set := false }, none)
  | some v =>
    let u := { u with Valid := true, Set := true }
    let r := ConvertAssign u.Uint_ v
    ({ u with Uint_ := r.1 }, r.2)

def Uint.Value (u : Uint) : DriverValue × Option Error :=
  if !u.Valid then (DriverValue.nil, none)
  else (DriverValue.int64 (wrapInt64 (u.Uint_ : ℤ)), none)

/-! ### Sequences of calls -/

/-- A call that changes an `Int` through its pointer receiver: `UnmarshalJSON`,
`UnmarshalText`, `SetValid` or `Scan`, with its argument; `α` is the type of the non-nil
values handed to `Scan`. -/
inductive IntCall (α : Type)
  | UnmarshalJSON (data : List UInt8)
  | UnmarshalText (text : List UInt8)
  | SetValid (n : ℤ)
  | Scan (value : Option α)

/-- The `Int` after one call on it, whatever error the call returned. -/
def Int.call {α : Type} (ConvertAssign : ℤ → α → ℤ × Option Error) (i : Int) :
    IntCall α → Int
  | IntCall.UnmarshalJSON data => (i.UnmarshalJSON data).1
  | IntCall.UnmarshalText text => (i.UnmarshalText text).1
  | IntCall.SetValid n => i.SetValid n
  | IntCall.Scan value => (Int.Scan ConvertAssign i value).1

/-- The `Int` after a sequence of calls, made in order. -/
def Int.calls {α : Type} (ConvertAssign : ℤ → α → ℤ × Option Error) (i : Int)
    (cs : List (IntCall α)) : Int :=
  cs.foldl (Int.call ConvertAssign) i

/-- A call that changes a `Uint` through its pointer receiver. -/
inductive UintCall (α : Type)
  | UnmarshalJSON (data : List UInt8)
  | UnmarshalText (text : List UInt8)
  | SetValid (n : ℕ)
  | Scan (value : Option α)

/-- The `Uint` after one call on it, whatever error the call returned. -/
def Uint.call {α : Type} (ConvertAssign : ℕ → α → ℕ × Option Error) (u : Uint) :
    UintCall α → Uint
  | UintCall.UnmarshalJSON data => (u.UnmarshalJSON data).1
  | UintCall.UnmarshalText text => (u.UnmarshalText text).1
  | UintCall.SetValid n => u.SetValid n
  | UintCall.Scan value => (Uint.Scan ConvertAssign u value).1

/-- The `Uint` after a sequence of calls, made in order. -/
def Uint.calls {α : Type} (ConvertAssign : ℕ → α → ℕ × Option Error) (u : Uint)
    (cs : List (UintCall α)) : Uint :=
  cs.foldl (Uint.call ConvertAssign) u

/-! ## The specification's words, as reference definitions -/

/-- The number that the digits `cs` denote in base 10 when appended to a number `n`
already read. -/
def decimalFrom (n : ℕ) (cs : List UInt8) : ℕ :=
  cs.foldl (fun a c => 10 * a + (c.toNat - 48)) n

/-- The number a digit string denotes in base 10. -/
def decimalValue (cs : List UInt8) : ℕ := decimalFrom 0 cs

/-- A non-empty string of decimal digits. -/
def isDecimal (cs : List UInt8) : Bool := !cs.isEmpty && cs.all isDigit

/-- Reading of "parse as base-10 integer, unsigned, platform width": a non-empty digit string whose
number is at most `2^64 - 1`. -/
def specParseUint (s : List UInt8) : Option ℕ :=
  if isDecimal s ∧ decimalValue s ≤ maxUint64 then some (decimalValue s) else none

/-- Reading of "parse as base-10 integer, signed, platform width": an optional sign `+` or `-`, a
non-empty digit string, and a number in `[-2^63, 2^63 - 1]`. -/
def specParseInt (s : List UInt8) : Option ℤ :=
  match s with
  | [] => none
  | c :: t =>
    let ds := if c.toNat = 43 ∨ c.toNat = 45 then t else s
    let v : ℤ := if c.toNat = 45 then -(decimalValue ds : ℤ) else (decimalValue ds : ℤ)
    if isDecimal ds ∧ -(2 : ℤ) ^ 63 ≤ v ∧ v ≤ 2 ^ 63 - 1 then some v else none

/-- The integer part of a JSON number: a non-empty digit string with no superfluous
leading zero. -/
def isJsonDigits (ds : List UInt8) : Bool :=
  isDecimal ds && (decide (ds.length = 1) || decide ((ds.map UInt8.toNat).head? ≠ some 48))

/-- Reading of "a well-formed 64-bit signed integer literal": JSON number syntax without fraction or
exponent (an optional minus sign and the integer part), optionally surrounded by JSON
white space, denoting a number in `[-2^63, 2^63 - 1]`. -/
def specInt64Literal (data : List UInt8) : Option ℤ :=
  let s := data.dropWhile isSpace
  let neg : Bool := decide ((s.map UInt8.toNat).head? = some 45)
  let body := if neg then s.tail else s
  let ds := body.takeWhile isDigit
  let rest := body.dropWhile isDigit
  let v : ℤ := if neg then -(decimalValue ds : ℤ) else (decimalValue ds : ℤ)
  if isJsonDigits ds ∧ rest.all isSpace ∧ -(2 : ℤ) ^ 63 ≤ v ∧ v ≤ 2 ^ 63 - 1 then some v
  else none

/-- Reading of "a well-formed 64-bit unsigned integer literal": the integer part of a JSON number,
without sign, fraction or exponent, optionally surrounded by JSON white space, denoting a
number of at most `2^64 - 1`. -/
def specUint64Literal (data : List UInt8) : Option ℕ :=
  let s := data.dropWhile isSpace
  let ds := s.takeWhile isDigit
  let rest := s.dropWhile isDigit
  if isJsonDigits ds ∧ rest.all isSpace ∧ decimalValue ds ≤ maxUint64 then
    some (decimalValue ds)
  else none

/-- The null token, optionally surrounded by JSON white space. -/
def isNullLiteral (data : List UInt8) : Bool :=
  let s := data.dropWhile isSpace
  decide (s.take 4 = NullBytes) && (s.drop 4).all isSpace

/-! ## `strconv`: parsing -/

theorem le_decimalFrom (cs : List UInt8) (n : ℕ) : n ≤ decimalFrom n cs := by
  induction cs generalizing n with
  | nil => simp [decimalFrom]
  | cons c cs ih =>
    have h := ih (10 * n + (c.toNat - 48))
    simp only [decimalFrom, List.foldl_cons] at h ⊢
    omega

theorem decimalFrom_cons (c : UInt8) (cs : List UInt8) (n : ℕ) :
    decimalFrom n (c :: cs) = decimalFrom (10 * n + (c.toNat - 48)) cs := by
  simp [decimalFrom]

theorem decimalFrom_append (as bs : List UInt8) (n : ℕ) :
    decimalFrom n (as ++ bs) = decimalFrom (decimalFrom n as) bs := by
  simp [decimalFrom]

theorem parseUintLoop_digits (cs : List UInt8) (n : ℕ) (hd : cs.all isDigit = true)
    (hn : n ≤ maxUint64) :
    parseUintLoop cs n =
      if decimalFrom n cs ≤ maxUint64 then (decimalFrom n cs, none)
      else (maxUint64, some Error.ErrRange) := by
  induction cs generalizing n with
  | nil => simp [parseUintLoop, decimalFrom, hn]
  | cons c cs ih =>
    simp only [List.all_cons, Bool.and_eq_true] at hd
    obtain ⟨hc, hcs⟩ := hd
    have hc2 : 48 ≤ c.toNat ∧ c.toNat ≤ 57 := by simpa [isDigit] using hc
    have hmono := le_decimalFrom cs (10 * n + (c.toNat - 48))
    rw [decimalFrom_cons]
    simp only [parseUintLoop, hc, Bool.not_true, Bool.false_eq_true, if_false]
    simp only [maxUint64] at hn hmono ⊢
    by_cases h1 : n ≥ (2 ^ 64 - 1) / 10 + 1
    · rw [if_pos h1, if_neg (by omega)]
    · rw [if_neg h1]
      by_cases h2 : n * 10 + (c.toNat - 48) < 2 ^ 64
      · have e1 : (n * 10 % 2 ^ 64 + (c.toNat - 48)) % 2 ^ 64 = 10 * n + (c.toNat - 48) := by
          omega
        have e2 : n * 10 % 2 ^ 64 = 10 * n := by omega
        rw [e1, e2, if_neg (by omega)]
        have := ih (10 * n + (c.toNat - 48)) hcs (by simp only [maxUint64]; omega)
        simpa only [maxUint64] using this
      · rw [if_pos (by omega), if_neg (by omega)]

theorem parseUintLoop_shape (cs : List UInt8) (n : ℕ) :
    (parseUintLoop cs n).2 = none ∨ parseUintLoop cs n = (0, some Error.ErrSyntax) ∨
      parseUintLoop cs n = (maxUint64, some Error.ErrRange) := by
  induction cs generalizing n with
  | nil => simp [parseUintLoop]
  | cons c cs ih =>
    simp only [parseUintLoop]
    split
    · simp
    · split
      · simp
      · split
        · simp
        · exact ih _

theorem parseUintLoop_not_digits (cs : List UInt8) (n : ℕ) (hd : cs.all isDigit = false) :
    (parseUintLoop cs n).2 ≠ none := by
  induction cs generalizing n with
  | nil => simp at hd
  | cons c cs ih =>
    simp only [parseUintLoop]
    split
    · simp
    · rename_i hc
      have hc1 : isDigit c = true := by simpa using hc
      have hcs : cs.all isDigit = false := by
        simpa [List.all_cons, hc1] using hd
      split
      · simp
      · split
        · simp
        · exact ih _ hcs

theorem ParseUint_of_spec (s : List UInt8) (v : ℕ) (h : specParseUint s = some v) :
    ParseUint s = (v, none) := by
  unfold specParseUint at h
  split at h
  · rename_i hc
    obtain ⟨hd, hv⟩ := hc
    simp only [isDecimal, Bool.and_eq_true, Bool.not_eq_true', List.isEmpty_eq_false] at hd
    have hne : s ≠ [] := by
      intro h0
      simp [h0] at hd
    injection h with h
    subst h
    simp only [ParseUint, hne, if_false]
    rw [parseUintLoop_digits s 0 hd.2 (by simp [maxUint64])]
    simp only [decimalValue] at hv ⊢
    rw [if_pos hv]
  · simp at h

theorem ParseUint_of_spec_none (s : List UInt8) (h : specParseUint s = none) :
    (ParseUint s).2 ≠ none := by
  unfold specParseUint at h
  split at h
  · simp at h
  · rename_i hc
    unfold ParseUint
    split
    · simp
    · rename_i hne
      by_cases hd : s.all isDigit = true
      · rw [parseUintLoop_digits s 0 hd (by simp [maxUint64])]
        have : ¬ decimalValue s ≤ maxUint64 := by
          intro hv
          apply hc
          refine ⟨?_, hv⟩
          simp only [isDecimal, Bool.and_eq_true, Bool.not_eq_true', List.isEmpty_eq_false]
          exact ⟨hne, hd⟩
        simp only [decimalValue] at this
        rw [if_neg this]
        simp
      · exact parseUintLoop_not_digits s 0 (by simpa using hd)


theorem wrapInt64_of_lt (n : ℕ) (h : n < 2 ^ 63) : wrapInt64 (n : ℤ) = n := by
  unfold wrapInt64
  omega

theorem wrapInt64_neg_wrap (n : ℕ) (h : n ≤ 2 ^ 63) :
    wrapInt64 (-(wrapInt64 (n : ℤ))) = -(n : ℤ) := by
  unfold wrapInt64
  omega

theorem wrapInt64_id (z : ℤ) (h1 : -(2 : ℤ) ^ 63 ≤ z) (h2 : z ≤ 2 ^ 63 - 1) :
    wrapInt64 z = z := by
  unfold wrapInt64
  omega

theorem ParseInt_of_spec (s : List UInt8) (v : ℤ) (h : specParseInt s = some v) :
    ParseInt s = (v, none) := by
  cases s with
  | nil => simp [specParseInt] at h
  | cons c t =>
    simp only [specParseInt] at h
    simp only [ParseInt]
    generalize (if c.toNat = 43 ∨ c.toNat = 45 then t else c :: t) = s1 at *
    by_cases hc : isDecimal s1 = true ∧
        (-(2 : ℤ) ^ 63 ≤ if c.toNat = 45 then -(decimalValue s1 : ℤ) else (decimalValue s1 : ℤ)) ∧
        (if c.toNat = 45 then -(decimalValue s1 : ℤ) else (decimalValue s1 : ℤ)) ≤ 2 ^ 63 - 1
    · rw [if_pos hc] at h
      injection h with h
      obtain ⟨hd, hlo, hhi⟩ := hc
      have hu : specParseUint s1 = some (decimalValue s1) := by
        unfold specParseUint
        rw [if_pos]
        refine ⟨hd, ?_⟩
        simp only [maxUint64]
        split at hlo <;> omega
      rw [ParseUint_of_spec _ _ hu]
      generalize decimalValue s1 = n at *
      by_cases hneg : c.toNat = 45
      · simp only [hneg, if_true] at h hlo hhi
        simp only [hneg, decide_True, Bool.not_true, Bool.false_eq_true, false_and, if_false,
          true_and, ne_eq, not_true_eq_false]
        rw [if_neg (by omega), wrapInt64_neg_wrap n (by omega), h]
        simp
      · simp only [hneg, if_false] at h hlo hhi
        simp only [hneg, decide_False, Bool.not_false, true_and, false_and, if_false, ne_eq,
          not_true_eq_false, Bool.false_eq_true]
        rw [if_neg (by omega), wrapInt64_of_lt n (by omega), h]
    · rw [if_neg hc] at h
      simp at h

theorem ParseUint_range_fst (s : List UInt8) (h : (ParseUint s).2 = some Error.ErrRange) :
    (ParseUint s).1 = maxUint64 := by
  unfold ParseUint at h ⊢
  split
  · rename_i h0
    simp [h0] at h
  · rename_i h0
    rw [if_neg h0] at h
    rcases parseUintLoop_shape s 0 with h1 | h1 | h1
    · rw [h1] at h; simp at h
    · rw [h1] at h; simp at h
    · rw [h1]

theorem ParseInt_of_spec_none (s : List UInt8) (h : specParseInt s = none) :
    (ParseInt s).2 ≠ none := by
  cases s with
  | nil => simp [ParseInt]
  | cons c t =>
    simp only [specParseInt] at h
    simp only [ParseInt]
    generalize (if c.toNat = 43 ∨ c.toNat = 45 then t else c :: t) = s1 at *
    by_cases hc : isDecimal s1 = true ∧
        (-(2 : ℤ) ^ 63 ≤ if c.toNat = 45 then -(decimalValue s1 : ℤ) else (decimalValue s1 : ℤ)) ∧
        (if c.toNat = 45 then -(decimalValue s1 : ℤ) else (decimalValue s1 : ℤ)) ≤ 2 ^ 63 - 1
    · rw [if_pos hc] at h
      simp at h
    · clear h
      by_cases he : (ParseUint s1).2 ≠ none ∧ (ParseUint s1).2 ≠ some Error.ErrRange
      · rw [if_pos he]
        exact he.1
      · rw [if_neg he]
        by_cases hsp : specParseUint s1 = none
        · have hne := ParseUint_of_spec_none s1 hsp
          have hr : (ParseUint s1).2 = some Error.ErrRange := by
            by_contra hcon
            exact he ⟨hne, hcon⟩
          rw [ParseUint_range_fst s1 hr]
          simp only [maxUint64]
          by_cases hneg : c.toNat = 45 <;> simp [hneg]
        · obtain ⟨n, hn⟩ := Option.ne_none_iff_exists'.mp hsp
          have hdn : isDecimal s1 = true ∧ decimalValue s1 = n := by
            unfold specParseUint at hn
            by_cases h3 : isDecimal s1 = true ∧ decimalValue s1 ≤ maxUint64
            · rw [if_pos h3] at hn
              injection hn with hn
              exact ⟨h3.1, hn⟩
            · rw [if_neg h3] at hn
              simp at hn
          rw [ParseUint_of_spec s1 n hn]
          rw [hdn.2] at hc
          by_cases hneg : c.toNat = 45
          · simp only [hneg, if_true, hdn.1, true_and] at hc
            simp only [hneg, decide_True, Bool.not_true, Bool.false_eq_true, false_and, if_false,
              true_and]
            rw [if_pos (by omega)]
            simp
          · simp only [hneg, if_false, hdn.1, true_and] at hc
            simp only [hneg, decide_False, Bool.not_false, true_and, false_and, if_false,
              Bool.false_eq_true]
            rw [if_pos (by omega)]
            simp

/-! ## `strconv`: formatting -/

theorem toNat_digit (d : ℕ) (h : d < 10) : (UInt8.ofNat (48 + d)).toNat = 48 + d := by
  simp [UInt8.toNat, UInt8.ofNat, Fin.ofNat]
  omega

theorem isDigit_digit (d : ℕ) (h : d < 10) : isDigit (UInt8.ofNat (48 + d)) = true := by
  simp only [isDigit, toNat_digit d h, Bool.and_eq_true, decide_eq_true_eq]
  omega

theorem digitsAux_acc (f u : ℕ) (acc : List UInt8) :
    digitsAux f u acc = digitsAux f u [] ++ acc := by
  induction f generalizing u acc with
  | zero => simp [digitsAux]
  | succ f ih =>
    simp only [digitsAux]
    split
    · simp
    · rw [ih (u / 10) (UInt8.ofNat (48 + u % 10) :: acc), ih (u / 10) [UInt8.ofNat (48 + u % 10)]]
      simp

theorem digitsAux_spec (f u : ℕ) (h : u < 10 ^ (f + 1)) :
    isDecimal (digitsAux (f + 1) u []) = true ∧ decimalValue (digitsAux (f + 1) u []) = u ∧
      (0 < u → ((digitsAux (f + 1) u []).map UInt8.toNat).head? ≠ some 48) ∧
      (u = 0 → (digitsAux (f + 1) u []).length = 1) := by
  induction f generalizing u with
  | zero =>
    have hu : u < 10 := by simpa using h
    simp only [digitsAux, hu, if_true]
    refine ⟨?_, ?_, ?_, ?_⟩
    · simp [isDecimal, isDigit_digit u hu]
    · simp [decimalValue, decimalFrom, toNat_digit u hu]
    · intro h0
      simp [toNat_digit u hu]
      omega
    · simp
  | succ f ih =>
    by_cases hu : u < 10
    · simp only [digitsAux, hu, if_true]
      refine ⟨?_, ?_, ?_, ?_⟩
      · simp [isDecimal, isDigit_digit u hu]
      · simp [decimalValue, decimalFrom, toNat_digit u hu]
      · intro h0
        simp [toNat_digit u hu]
        omega
      · simp
    · have hq : u / 10 < 10 ^ (f + 1) := by
        rw [Nat.div_lt_iff_lt_mul (by norm_num)]
        calc u < 10 ^ (f + 1 + 1) := h
          _ = 10 ^ (f + 1) * 10 := by ring
      obtain ⟨h1, h2, h3, _⟩ := ih (u / 10) hq
      have hm : u % 10 < 10 := Nat.mod_lt _ (by norm_num)
      have hstep : digitsAux (f + 1 + 1) u [] =
          digitsAux (f + 1) (u / 10) [] ++ [UInt8.ofNat (48 + u % 10)] := by
        rw [digitsAux, if_neg hu, digitsAux_acc]
      rw [hstep]
      generalize digitsAux (f + 1) (u / 10) [] = l at h1 h2 h3
      simp only [isDecimal, Bool.and_eq_true, Bool.not_eq_true', List.isEmpty_eq_false] at h1
      have hne : l ≠ [] := by
        intro h0
        simp [h0] at h1
      refine ⟨?_, ?_, ?_, ?_⟩
      · simp [isDecimal, h1.2, isDigit_digit _ hm]
      · simp only [decimalValue] at h2 ⊢
        rw [decimalFrom_append, h2]
        simp only [decimalFrom, List.foldl_cons, List.foldl_nil, toNat_digit _ hm]
        omega
      · intro _
        have := h3 (by omega)
        cases l with
        | nil => exact absurd rfl hne
        | cons a l => simpa using this
      · intro h0
        omega

theorem formatBits_spec (u : ℕ) (h : u < 2 ^ 64) :
    isJsonDigits (digitsAux 20 u []) = true ∧ decimalValue (digitsAux 20 u []) = u := by
  obtain ⟨h1, h2, h3, h4⟩ := digitsAux_spec 19 u (by omega)
  refine ⟨?_, h2⟩
  simp only [isJsonDigits, Bool.and_eq_true, h1, true_and, Bool.or_eq_true, decide_eq_true_eq]
  by_cases h0 : u = 0
  · exact Or.inl (h4 h0)
  · exact Or.inr (h3 (by omega))

/-! ## The JSON scanner -/

theorem isSpace_iff (c : UInt8) :
    isSpace c = true ↔ c.toNat = 32 ∨ c.toNat = 9 ∨ c.toNat = 13 ∨ c.toNat = 10 := by
  simp [isSpace, or_assoc]

theorem isDigit_iff (c : UInt8) : isDigit c = true ↔ 48 ≤ c.toNat ∧ c.toNat ≤ 57 := by
  simp [isDigit]

theorem isNumChar_iff (c : UInt8) :
    isNumChar c = true ↔ (48 ≤ c.toNat ∧ c.toNat ≤ 57) ∨ c.toNat = 46 ∨ c.toNat = 101 ∨
      c.toNat = 69 ∨ c.toNat = 43 ∨ c.toNat = 45 := by
  simp [isNumChar, isDigit, or_assoc]

theorem isDigit_false_iff (c : UInt8) : isDigit c = false ↔ ¬ (48 ≤ c.toNat ∧ c.toNat ≤ 57) := by
  rw [← isDigit_iff]
  simp

theorem accepts_cons (s : Scan) (c : UInt8) (l : List UInt8) :
    accepts s (c :: l) = match step s c with
      | none => false
      | some s1 => accepts s1 l := by
  simp only [accepts, run]
  cases step s c <;> rfl

theorem accepts_endTop (l : List UInt8) : accepts Scan.endTop l = l.all isSpace := by
  induction l with
  | nil => rfl
  | cons c l ih =>
    rw [accepts_cons]
    simp only [step, stepEndTop]
    by_cases h : isSpace c = true
    · simp [h, ih]
    · simp [h]

theorem accepts_step0 (c : UInt8) (r : List UInt8)
    (h : (match step0 c with
      | none => false
      | some s1 => accepts s1 r) = true) :
    (isSpace c = true ∧ r.all isSpace = true) ∨ (isNumChar c = true ∧ isDigit c = false) := by
  simp only [step0] at h
  by_cases h1 : c.toNat = 46
  · right
    rw [isNumChar_iff, isDigit_false_iff]
    omega
  · by_cases h2 : c.toNat = 101 ∨ c.toNat = 69
    · right
      rw [isNumChar_iff, isDigit_false_iff]
      omega
    · rw [if_neg h1, if_neg h2] at h
      simp only [stepEndTop] at h
      by_cases h3 : isSpace c = true
      · rw [if_pos h3] at h
        simp only [accepts_endTop] at h
        exact Or.inl ⟨h3, h⟩
      · rw [if_neg h3] at h
        simp at h

theorem accepts_zero_tail (t : List UInt8) (h : accepts Scan.zero t = true) :
    t.all isSpace = true ∨ ∃ c r, t = c :: r ∧ isNumChar c = true ∧ isDigit c = false := by
  cases t with
  | nil => exact Or.inl rfl
  | cons c r =>
    rw [accepts_cons] at h
    simp only [step] at h
    rcases accepts_step0 c r h with h1 | h1
    · left
      simp [h1.1, h1.2]
    · exact Or.inr ⟨c, r, rfl, h1⟩

theorem accepts_one_tail (t : List UInt8) (h : accepts Scan.one t = true) :
    (t.dropWhile isDigit).all isSpace = true ∨
      ∃ c r, t.dropWhile isDigit = c :: r ∧ isNumChar c = true ∧ isDigit c = false := by
  induction t with
  | nil => exact Or.inl rfl
  | cons c r ih =>
    rw [accepts_cons] at h
    simp only [step] at h
    by_cases hd : isDigit c = true
    · rw [if_pos hd] at h
      simp only [List.dropWhile_cons, hd, if_true]
      exact ih h
    · rw [if_neg hd] at h
      simp only [List.dropWhile_cons, hd, if_false, Bool.false_eq_true]
      rcases accepts_step0 c r h with h1 | h1
      · left
        simp [h1.1, h1.2]
      · exact Or.inr ⟨c, r, rfl, h1⟩

theorem accepts_of_all_space (t : List UInt8) (h : t.all isSpace = true) :
    accepts Scan.zero t = true ∧ accepts Scan.one t = true ∧ accepts Scan.endValue t = true := by
  cases t with
  | nil => exact ⟨rfl, rfl, rfl⟩
  | cons c r =>
    simp only [List.all_cons, Bool.and_eq_true] at h
    have hc := (isSpace_iff c).mp h.1
    have hd : isDigit c = false := by
      rw [isDigit_false_iff]
      omega
    have h0 : step0 c = some Scan.endTop := by
      simp only [step0, stepEndTop, h.1, if_true]
      rw [if_neg (by omega), if_neg (by omega)]
    refine ⟨?_, ?_, ?_⟩
    · rw [accepts_cons]
      simp only [step, h0, accepts_endTop, h.2]
    · rw [accepts_cons]
      simp only [step, hd, Bool.false_eq_true, if_false, h0, accepts_endTop, h.2]
    · rw [accepts_cons]
      simp only [step, stepEndTop, h.1, if_true, accepts_endTop, h.2]

theorem accepts_one_dropWhile (t : List UInt8) :
    accepts Scan.one t = accepts Scan.one (t.dropWhile isDigit) := by
  induction t with
  | nil => rfl
  | cons c r ih =>
    by_cases hd : isDigit c = true
    · rw [accepts_cons]
      simp only [step, hd, if_true, List.dropWhile_cons]
      exact ih
    · simp only [List.dropWhile_cons, hd, if_false, Bool.false_eq_true]

theorem takeWhile_numChar_of_space (t : List UInt8) (h : t.all isSpace = true) :
    t.takeWhile isNumChar = [] ∧ t.takeWhile isDigit = [] ∧ t.dropWhile isDigit = t := by
  cases t with
  | nil => simp
  | cons c r =>
    simp only [List.all_cons, Bool.and_eq_true] at h
    have hc := (isSpace_iff c).mp h.1
    have hd : isDigit c = false := by
      rw [isDigit_false_iff]
      omega
    have hn : isNumChar c = false := by
      rw [← Bool.not_eq_true, isNumChar_iff]
      omega
    simp [List.takeWhile_cons, List.dropWhile_cons, hd, hn]

theorem takeWhile_numChar_digits (t : List UInt8) :
    t.takeWhile isNumChar = t.takeWhile isDigit ++ (t.dropWhile isDigit).takeWhile isNumChar := by
  induction t with
  | nil => simp
  | cons c r ih =>
    by_cases hd : isDigit c = true
    · have hn : isNumChar c = true := by
        rw [isNumChar_iff]
        exact Or.inl ((isDigit_iff c).mp hd)
      simp only [List.takeWhile_cons, List.dropWhile_cons, hd, hn, if_true, List.cons_append, ih]
    · simp only [List.takeWhile_cons, List.dropWhile_cons, hd, if_false, Bool.false_eq_true,
        List.nil_append]

theorem all_isDigit_takeWhile (t : List UInt8) : (t.takeWhile isDigit).all isDigit = true := by
  rw [List.all_eq_true]
  intro x hx
  exact List.mem_takeWhile_imp hx

theorem accepts_neg_number (body : List UInt8) (h : accepts Scan.neg body = true) :
    (isJsonDigits (body.takeWhile isDigit) = true ∧
        (body.dropWhile isDigit).all isSpace = true) ∨
      ((body.takeWhile isNumChar).drop 1).all isDigit = false := by
  cases body with
  | nil => exact absurd h (by decide)
  | cons d t =>
    rw [accepts_cons] at h
    simp only [step] at h
    by_cases h0 : d.toNat = 48
    · rw [if_pos h0] at h
      have hd : isDigit d = true := by
        rw [isDigit_iff]
        omega
      have hn : isNumChar d = true := by
        rw [isNumChar_iff]
        omega
      rcases accepts_zero_tail t h with h1 | ⟨c, r, h1, h2, h3⟩
      · left
        obtain ⟨_, e2, e3⟩ := takeWhile_numChar_of_space t h1
        simp only [List.takeWhile_cons, List.dropWhile_cons, hd, if_true, e2, e3]
        exact ⟨by simp [isJsonDigits, isDecimal, hd], h1⟩
      · right
        subst h1
        simp [List.takeWhile_cons, hn, h2, h3]
    · rw [if_neg h0] at h
      by_cases h9 : 49 ≤ d.toNat ∧ d.toNat ≤ 57
      · rw [if_pos h9] at h
        have hd : isDigit d = true := by
          rw [isDigit_iff]
          omega
        have hn : isNumChar d = true := by
          rw [isNumChar_iff]
          omega
        rcases accepts_one_tail t h with h1 | ⟨c, r, h1, h2, h3⟩
        · left
          simp only [List.takeWhile_cons, List.dropWhile_cons, hd, if_true]
          refine ⟨?_, h1⟩
          simp [isJsonDigits, isDecimal, hd, all_isDigit_takeWhile t, h0]
        · right
          simp only [List.takeWhile_cons, hn, if_true, List.drop_succ_cons, List.drop_zero]
          rw [takeWhile_numChar_digits, h1]
          simp [List.takeWhile_cons, h2, h3]
      · rw [if_neg h9] at h
        simp at h

theorem accepts_neg_of_digits (body : List UInt8)
    (h1 : isJsonDigits (body.takeWhile isDigit) = true)
    (h2 : (body.dropWhile isDigit).all isSpace = true) :
    accepts Scan.neg body = true ∧ body.takeWhile isNumChar = body.takeWhile isDigit := by
  constructor
  · cases body with
    | nil => simp [isJsonDigits, isDecimal] at h1
    | cons d t =>
      by_cases hd : isDigit d = true
      · simp only [List.takeWhile_cons, List.dropWhile_cons, hd, if_true] at h1 h2
        have hd2 := (isDigit_iff d).mp hd
        rw [accepts_cons]
        simp only [step]
        by_cases h0 : d.toNat = 48
        · rw [if_pos h0]
          dsimp only
          simp only [isJsonDigits, isDecimal, List.length_cons, List.map_cons, List.head?_cons,
            h0, Bool.and_eq_true, Bool.or_eq_true, decide_eq_true_eq, ne_eq, not_true_eq_false,
            or_false] at h1
          have he : t.takeWhile isDigit = [] := by
            have := h1.2
            exact List.length_eq_zero.mp (by omega)
          have ht : t.dropWhile isDigit = t := by
            have := List.takeWhile_append_dropWhile isDigit t
            rw [he] at this
            simpa using this
          rw [ht] at h2
          exact (accepts_of_all_space t h2).1
        · rw [if_neg h0, if_pos (by omega)]
          dsimp only
          rw [accepts_one_dropWhile]
          exact (accepts_of_all_space _ h2).2.1
      · simp [List.takeWhile_cons, hd, isJsonDigits, isDecimal] at h1
  · rw [takeWhile_numChar_digits, (takeWhile_numChar_of_space _ h2).1]
    simp

theorem accepts_beginValue_dropWhile (data : List UInt8) :
    accepts Scan.beginValue data = accepts Scan.beginValue (data.dropWhile isSpace) := by
  induction data with
  | nil => rfl
  | cons c r ih =>
    by_cases hc : isSpace c = true
    · rw [accepts_cons]
      simp only [step, hc, if_true, List.dropWhile_cons]
      exact ih
    · simp only [List.dropWhile_cons, hc, if_false, Bool.false_eq_true]

theorem accepts_beginValue_minus (c : UInt8) (t : List UInt8) (h : c.toNat = 45) :
    accepts Scan.beginValue (c :: t) = accepts Scan.neg t := by
  have hs : ¬ isSpace c = true := by
    rw [isSpace_iff]
    omega
  rw [accepts_cons]
  simp only [step]
  rw [if_neg hs, if_pos h]

theorem accepts_beginValue_digit (c : UInt8) (t : List UInt8) (hs : isSpace c = false)
    (h1 : c.toNat ≠ 45) (h2 : c.toNat ≠ 110) :
    accepts Scan.beginValue (c :: t) = accepts Scan.neg (c :: t) := by
  rw [accepts_cons, accepts_cons]
  simp only [step, hs, Bool.false_eq_true, if_false, h1, h2]

theorem accepts_beginValue_n (c : UInt8) (t : List UInt8) (h : c.toNat = 110) :
    accepts Scan.beginValue (c :: t) = accepts Scan.n t := by
  have hs : ¬ isSpace c = true := by
    rw [isSpace_iff]
    omega
  rw [accepts_cons]
  simp only [step]
  rw [if_neg hs, if_neg (by omega), if_neg (by omega), if_pos h]

theorem byte_eq_of_toNat (c : UInt8) (n : ℕ) (hn : n < 256) (h : c.toNat = n) :
    c = UInt8.ofNat n := by
  apply UInt8.ext
  rw [h]
  simp [UInt8.toNat, UInt8.ofNat, Fin.ofNat]
  omega

theorem accepts_n_tail (t : List UInt8) (h : accepts Scan.n t = true) :
    t.take 3 = [117, 108, 108] ∧ (t.drop 3).all isSpace = true := by
  cases t with
  | nil => exact absurd h (by decide)
  | cons a t =>
    rw [accepts_cons] at h
    simp only [step] at h
    by_cases ha : a.toNat = 117
    · rw [if_pos ha] at h
      dsimp only at h
      cases t with
      | nil => exact absurd h (by decide)
      | cons b t =>
        rw [accepts_cons] at h
        simp only [step] at h
        by_cases hb : b.toNat = 108
        · rw [if_pos hb] at h
          dsimp only at h
          cases t with
          | nil => exact absurd h (by decide)
          | cons c t =>
            rw [accepts_cons] at h
            simp only [step] at h
            by_cases hc : c.toNat = 108
            · rw [if_pos hc] at h
              dsimp only at h
              have e1 := byte_eq_of_toNat a 117 (by norm_num) ha
              have e2 := byte_eq_of_toNat b 108 (by norm_num) hb
              have e3 := byte_eq_of_toNat c 108 (by norm_num) hc
              subst e1 e2 e3
              refine ⟨rfl, ?_⟩
              simp only [List.drop_succ_cons, List.drop_zero]
              cases t with
              | nil => rfl
              | cons d t =>
                rw [accepts_cons] at h
                simp only [step, stepEndTop] at h
                by_cases hd : isSpace d = true
                · rw [if_pos hd] at h
                  simp only [accepts_endTop] at h
                  simp [hd, h]
                · rw [if_neg hd] at h
                  simp at h
            · rw [if_neg hc] at h
              simp at h
        · rw [if_neg hb] at h
          simp at h
    · rw [if_neg ha] at h
      simp at h

/-! ## `json.Unmarshal` into an integer -/

theorem not_pred_of_dropWhile_eq_cons {p : UInt8 → Bool} (data : List UInt8) (c : UInt8)
    (rest : List UInt8) (h : data.dropWhile p = c :: rest) : p c = false := by
  induction data with
  | nil => simp at h
  | cons a l ih =>
    by_cases ha : p a = true
    · simp only [List.dropWhile_cons, ha, if_true] at h
      exact ih h
    · simp only [List.dropWhile_cons, ha, if_false, Bool.false_eq_true] at h
      injection h with h1 h2
      subst h1
      simpa using ha

theorem decodeLiteral_null (data : List UInt8)
    (h : decodeLiteral data = Except.ok Literal.null) : isNullLiteral data = true := by
  unfold decodeLiteral at h
  cases hs : data.dropWhile isSpace with
  | nil => simp [hs] at h
  | cons c rest =>
    simp only [hs] at h
    split at h
    · simp at h
    · split at h
      · simp at h
      · rename_i hv
        split at h
        · rename_i hn
          have hv2 : checkValid data = true := by simpa using hv
          unfold checkValid at hv2
          rw [accepts_beginValue_dropWhile, hs, accepts_beginValue_n c rest hn] at hv2
          obtain ⟨e1, e2⟩ := accepts_n_tail rest hv2
          have ec := byte_eq_of_toNat c 110 (by norm_num) hn
          subst ec
          simp only [isNullLiteral, hs, Bool.and_eq_true, decide_eq_true_eq]
          refine ⟨?_, ?_⟩
          · simp only [List.take_succ_cons, e1]
            rfl
          · simpa using e2
        · simp at h

theorem decodeLiteral_number (data item : List UInt8)
    (h : decodeLiteral data = Except.ok (Literal.number item)) :
    ∃ c rest, data.dropWhile isSpace = c :: rest ∧ item = (c :: rest).takeWhile isNumChar ∧
      ((c.toNat = 45 ∧ accepts Scan.neg rest = true) ∨
        (c.toNat ≠ 45 ∧ accepts Scan.neg (c :: rest) = true)) := by
  unfold decodeLiteral at h
  cases hs : data.dropWhile isSpace with
  | nil => simp [hs] at h
  | cons c rest =>
    simp only [hs] at h
    split at h
    · simp at h
    · split at h
      · simp at h
      · rename_i hv
        split at h
        · simp at h
        · rename_i hn
          have hv2 : checkValid data = true := by simpa using hv
          unfold checkValid at hv2
          rw [accepts_beginValue_dropWhile, hs] at hv2
          have hi : item = (c :: rest).takeWhile isNumChar := by
            simp only [Except.ok.injEq, Literal.number.injEq] at h
            exact h.symm
          refine ⟨c, rest, rfl, hi, ?_⟩
          by_cases hm : c.toNat = 45
          · rw [accepts_beginValue_minus c rest hm] at hv2
            exact Or.inl ⟨hm, hv2⟩
          · rw [accepts_beginValue_digit c rest (not_pred_of_dropWhile_eq_cons data c rest hs)
              hm hn] at hv2
            exact Or.inr ⟨hm, hv2⟩

theorem decodeLiteral_of_minus (data : List UInt8) (c : UInt8) (body : List UInt8)
    (hs : data.dropWhile isSpace = c :: body) (hc : c.toNat = 45)
    (h1 : isJsonDigits (body.takeWhile isDigit) = true)
    (h2 : (body.dropWhile isDigit).all isSpace = true) :
    decodeLiteral data = Except.ok (Literal.number (c :: body.takeWhile isDigit)) := by
  obtain ⟨ha, ht⟩ := accepts_neg_of_digits body h1 h2
  have hv : checkValid data = true := by
    unfold checkValid
    rw [accepts_beginValue_dropWhile, hs, accepts_beginValue_minus c body hc]
    exact ha
  have hn : isNumChar c = true := by
    rw [isNumChar_iff]
    omega
  unfold decodeLiteral
  simp only [hs, hv, Bool.not_true, Bool.false_eq_true, if_false, List.takeWhile_cons, hn,
    if_true, ht]
  rw [if_neg (by omega), if_neg (by omega)]

theorem decodeLiteral_of_digits (data : List UInt8)
    (h1 : isJsonDigits ((data.dropWhile isSpace).takeWhile isDigit) = true)
    (h2 : ((data.dropWhile isSpace).dropWhile isDigit).all isSpace = true) :
    decodeLiteral data =
      Except.ok (Literal.number ((data.dropWhile isSpace).takeWhile isDigit)) := by
  obtain ⟨ha, ht⟩ := accepts_neg_of_digits _ h1 h2
  cases hs : data.dropWhile isSpace with
  | nil => simp [hs, isJsonDigits, isDecimal] at h1
  | cons c rest =>
    rw [hs] at ha ht h1
    have hd : isDigit c = true := by
      by_contra hcon
      simp [List.takeWhile_cons, hcon, isJsonDigits, isDecimal] at h1
    have hd2 := (isDigit_iff c).mp hd
    have hv : checkValid data = true := by
      unfold checkValid
      rw [accepts_beginValue_dropWhile, hs, accepts_beginValue_digit c rest
        (not_pred_of_dropWhile_eq_cons data c rest hs) (by omega) (by omega)]
      exact ha
    unfold decodeLiteral
    simp only [hs, hv, Bool.not_true, Bool.false_eq_true, if_false, ht]
    rw [if_neg (by omega), if_neg (by omega)]

theorem specParseInt_minus (c : UInt8) (ds : List UInt8) (hc : c.toNat = 45) :
    specParseInt (c :: ds) =
      if isDecimal ds = true ∧ decimalValue ds ≤ 2 ^ 63 then some (-(decimalValue ds : ℤ))
      else none := by
  simp only [specParseInt, hc, or_true, if_true]
  by_cases h : isDecimal ds = true ∧ decimalValue ds ≤ 2 ^ 63
  · rw [if_pos h, if_pos ⟨h.1, by omega, by omega⟩]
  · rw [if_neg h, if_neg]
    intro h3
    exact h ⟨h3.1, by omega⟩

theorem specParseInt_digits (ds : List UInt8) (hd : isDecimal ds = true) :
    specParseInt ds =
      if decimalValue ds ≤ 2 ^ 63 - 1 then some (decimalValue ds : ℤ) else none := by
  cases ds with
  | nil => simp [isDecimal] at hd
  | cons c t =>
    have hc : isDigit c = true := by
      simp only [isDecimal, List.all_cons, Bool.and_eq_true] at hd
      exact hd.2.1
    have hc2 := (isDigit_iff c).mp hc
    have e1 : ¬ c.toNat = 43 := by omega
    have e2 : ¬ c.toNat = 45 := by omega
    simp only [specParseInt, e1, e2, or_self, if_false]
    by_cases h : decimalValue (c :: t) ≤ 2 ^ 63 - 1
    · rw [if_pos h, if_pos ⟨hd, by omega, by omega⟩]
    · rw [if_neg h, if_neg]
      intro h3
      exact h (by omega)

theorem ParseInt_bad (item : List UInt8) (h : (item.drop 1).all isDigit = false) :
    (ParseInt item).2 ≠ none := by
  apply ParseInt_of_spec_none
  cases item with
  | nil => rfl
  | cons c t =>
    simp only [List.drop_succ_cons, List.drop_zero] at h
    simp only [specParseInt]
    rw [if_neg]
    intro h3
    have h4 := h3.1
    split at h4
    · simp [isDecimal, h] at h4
    · simp [isDecimal, h] at h4

theorem ParseUint_bad (item : List UInt8) (h : item.all isDigit = false) :
    (ParseUint item).2 ≠ none := by
  apply ParseUint_of_spec_none
  unfold specParseUint
  rw [if_neg]
  intro h3
  simp [isDecimal, h] at h3

theorem all_isDigit_false_of_drop (item : List UInt8) (h : (item.drop 1).all isDigit = false) :
    item.all isDigit = false := by
  cases item with
  | nil => simp at h
  | cons c t =>
    simp only [List.drop_succ_cons, List.drop_zero] at h
    simp [h]

theorem specInt64Literal_minus (data : List UInt8) (c : UInt8) (body : List UInt8)
    (hs : data.dropWhile isSpace = c :: body) (hc : c.toNat = 45) :
    specInt64Literal data =
      if isJsonDigits (body.takeWhile isDigit) = true ∧
          (body.dropWhile isDigit).all isSpace = true ∧
          decimalValue (body.takeWhile isDigit) ≤ 2 ^ 63 then
        some (-(decimalValue (body.takeWhile isDigit) : ℤ))
      else none := by
  simp only [specInt64Literal, hs, List.map_cons, List.head?_cons, hc, decide_True, if_true,
    List.tail_cons]
  by_cases h : isJsonDigits (body.takeWhile isDigit) = true ∧
      (body.dropWhile isDigit).all isSpace = true ∧
      decimalValue (body.takeWhile isDigit) ≤ 2 ^ 63
  · rw [if_pos h, if_pos ⟨h.1, h.2.1, by omega, by omega⟩]
  · rw [if_neg h, if_neg]
    intro h3
    exact h ⟨h3.1, h3.2.1, by omega⟩

theorem specInt64Literal_plain (data : List UInt8)
    (hc : ((data.dropWhile isSpace).map UInt8.toNat).head? ≠ some 45) :
    specInt64Literal data =
      if isJsonDigits ((data.dropWhile isSpace).takeWhile isDigit) = true ∧
          ((data.dropWhile isSpace).dropWhile isDigit).all isSpace = true ∧
          decimalValue ((data.dropWhile isSpace).takeWhile isDigit) ≤ 2 ^ 63 - 1 then
        some (decimalValue ((data.dropWhile isSpace).takeWhile isDigit) : ℤ)
      else none := by
  simp only [specInt64Literal, hc, decide_False, if_false, Bool.false_eq_true]
  generalize (data.dropWhile isSpace) = s
  by_cases h : isJsonDigits (s.takeWhile isDigit) = true ∧
      (s.dropWhile isDigit).all isSpace = true ∧ decimalValue (s.takeWhile isDigit) ≤ 2 ^ 63 - 1
  · rw [if_pos h, if_pos ⟨h.1, h.2.1, by omega, by omega⟩]
  · rw [if_neg h, if_neg]
    intro h3
    exact h ⟨h3.1, h3.2.1, by omega⟩

theorem isDecimal_of_isJsonDigits (ds : List UInt8) (h : isJsonDigits ds = true) :
    isDecimal ds = true := by
  simp only [isJsonDigits, Bool.and_eq_true] at h
  exact h.1

theorem UnmarshalInt64_of_spec (data : List UInt8) (x v : ℤ)
    (h : specInt64Literal data = some v) : UnmarshalInt64 data x = (v, none) := by
  cases hs : data.dropWhile isSpace with
  | nil => simp [specInt64Literal, hs, isJsonDigits, isDecimal] at h
  | cons c rest =>
    by_cases hm : c.toNat = 45
    · rw [specInt64Literal_minus data c rest hs hm] at h
      split at h
      · rename_i hc
        injection h with h
        have hp : ParseInt (c :: rest.takeWhile isDigit) = (v, none) := by
          apply ParseInt_of_spec
          rw [specParseInt_minus c _ hm, if_pos ⟨isDecimal_of_isJsonDigits _ hc.1, hc.2.2⟩, h]
        simp [UnmarshalInt64, decodeLiteral_of_minus data c rest hs hm hc.1 hc.2.1, hp]
      · simp at h
    · have hh : ((data.dropWhile isSpace).map UInt8.toNat).head? ≠ some 45 := by
        simp [hs, hm]
      rw [specInt64Literal_plain data hh] at h
      split at h
      · rename_i hc
        injection h with h
        have hp : ParseInt ((data.dropWhile isSpace).takeWhile isDigit) = (v, none) := by
          apply ParseInt_of_spec
          rw [specParseInt_digits _ (isDecimal_of_isJsonDigits _ hc.1), if_pos hc.2.2, h]
        simp [UnmarshalInt64, decodeLiteral_of_digits data hc.1 hc.2.1, hp]
      · simp at h

theorem UnmarshalInt64_of_spec_none (data : List UInt8) (x : ℤ)
    (h : specInt64Literal data = none) (hn : isNullLiteral data = false) :
    ∃ e, UnmarshalInt64 data x = (x, some e) := by
  unfold UnmarshalInt64
  cases hd : decodeLiteral data with
  | error e => exact ⟨e, rfl⟩
  | ok l =>
    cases l with
    | null =>
      rw [decodeLiteral_null data hd] at hn
      simp at hn
    | number item =>
      refine ⟨Error.UnmarshalTypeError, ?_⟩
      have hbad : (ParseInt item).2 ≠ none := by
        obtain ⟨c, rest, hs, hi, hcase⟩ := decodeLiteral_number data item hd
        rcases hcase with ⟨hm, ha⟩ | ⟨hm, ha⟩
        · rw [specInt64Literal_minus data c rest hs hm] at h
          have hn1 : isNumChar c = true := by
            rw [isNumChar_iff]
            omega
          rcases accepts_neg_number rest ha with ⟨g1, g2⟩ | g
          · have ht := (accepts_neg_of_digits rest g1 g2).2
            rw [hi]
            simp only [List.takeWhile_cons, hn1, if_true, ht]
            apply ParseInt_of_spec_none
            rw [specParseInt_minus c _ hm]
            split at h
            · simp at h
            · rename_i hc
              rw [if_neg]
              intro h3
              exact hc ⟨g1, g2, h3.2⟩
          · apply ParseInt_bad
            rw [hi]
            simpa only [List.takeWhile_cons, hn1, if_true, List.drop_succ_cons,
              List.drop_zero] using
              (by
                cases hr : rest.takeWhile isNumChar with
                | nil => simp [hr] at g
                | cons a l =>
                  rw [hr] at g
                  simp only [List.drop_succ_cons, List.drop_zero] at g
                  simp [g] : (rest.takeWhile isNumChar).all isDigit = false)
        · have hh : ((data.dropWhile isSpace).map UInt8.toNat).head? ≠ some 45 := by
            simp [hs, hm]
          rw [specInt64Literal_plain data hh, hs] at h
          rcases accepts_neg_number (c :: rest) ha with ⟨g1, g2⟩ | g
          · have ht := (accepts_neg_of_digits (c :: rest) g1 g2).2
            rw [hi, ht]
            apply ParseInt_of_spec_none
            rw [specParseInt_digits _ (isDecimal_of_isJsonDigits _ g1)]
            split at h
            · simp at h
            · rename_i hc
              rw [if_neg]
              intro h3
              exact hc ⟨g1, g2, h3⟩
          · apply ParseInt_bad
            rw [hi]
            exact g
      simp [hbad]

theorem UnmarshalUint64_of_spec (data : List UInt8) (x v : ℕ)
    (h : specUint64Literal data = some v) : UnmarshalUint64 data x = (v, none) := by
  simp only [specUint64Literal] at h
  split at h
  · rename_i hc
    injection h with h
    have hp : ParseUint ((data.dropWhile isSpace).takeWhile isDigit) = (v, none) := by
      apply ParseUint_of_spec
      unfold specParseUint
      rw [if_pos ⟨isDecimal_of_isJsonDigits _ hc.1, hc.2.2⟩, h]
    simp [UnmarshalUint64, decodeLiteral_of_digits data hc.1 hc.2.1, hp]
  · simp at h

theorem UnmarshalUint64_of_spec_none (data : List UInt8) (x : ℕ)
    (h : specUint64Literal data = none) (hn : isNullLiteral data = false) :
    ∃ e, UnmarshalUint64 data x = (x, some e) := by
  unfold UnmarshalUint64
  cases hd : decodeLiteral data with
  | error e => exact ⟨e, rfl⟩
  | ok l =>
    cases l with
    | null =>
      rw [decodeLiteral_null data hd] at hn
      simp at hn
    | number item =>
      refine ⟨Error.UnmarshalTypeError, ?_⟩
      have hbad : (ParseUint item).2 ≠ none := by
        obtain ⟨c, rest, hs, hi, hcase⟩ := decodeLiteral_number data item hd
        rcases hcase with ⟨hm, _⟩ | ⟨hm, ha⟩
        · have hn1 : isNumChar c = true := by
            rw [isNumChar_iff]
            omega
          have hd1 : isDigit c = false := by
            rw [isDigit_false_iff]
            omega
          apply ParseUint_bad
          rw [hi]
          simp [List.takeWhile_cons, hn1, hd1]
        · simp only [specUint64Literal, hs] at h
          rcases accepts_neg_number (c :: rest) ha with ⟨g1, g2⟩ | g
          · have ht := (accepts_neg_of_digits (c :: rest) g1 g2).2
            rw [hi, ht]
            apply ParseUint_of_spec_none
            unfold specParseUint
            split at h
            · simp at h
            · rename_i hc
              rw [if_neg]
              intro h3
              exact hc ⟨g1, g2, h3.2⟩
          · apply ParseUint_bad
            rw [hi]
            exact all_isDigit_false_of_drop _ g
      simp [hbad]

/-! ## Formatting followed by `json.Unmarshal` -/

theorem dropWhile_isSpace_of_digits (l : List UInt8) (h : isDecimal l = true) :
    l.dropWhile isSpace = l ∧ l.takeWhile isDigit = l ∧ l.dropWhile isDigit = [] := by
  simp only [isDecimal, Bool.and_eq_true, Bool.not_eq_true', List.isEmpty_eq_false] at h
  obtain ⟨hne, hall⟩ := h
  have h1 : l.takeWhile isDigit = l := by
    rw [List.takeWhile_eq_self_iff]
    intro x hx
    exact (List.all_eq_true.mp hall) x hx
  have h2 : l.dropWhile isDigit = [] := by
    have := List.takeWhile_append_dropWhile isDigit l
    rw [h1] at this
    simpa using this
  refine ⟨?_, h1, h2⟩
  cases l with
  | nil => exact absurd rfl hne
  | cons c t =>
    have hc : isDigit c = true := by
      simp only [List.all_cons, Bool.and_eq_true] at hall
      exact hall.1
    have hc2 := (isDigit_iff c).mp hc
    have hsp : isSpace c = false := by
      rw [← Bool.not_eq_true, isSpace_iff]
      omega
    simp [List.dropWhile_cons, hsp]

theorem specUint64Literal_FormatUint (u : ℕ) (h : u < 2 ^ 64) :
    specUint64Literal (FormatUint u) = some u := by
  obtain ⟨h1, h2⟩ := formatBits_spec u h
  obtain ⟨e1, e2, e3⟩ := dropWhile_isSpace_of_digits _ (isDecimal_of_isJsonDigits _ h1)
  simp only [FormatUint, formatBits, Bool.false_eq_true, if_false, specUint64Literal, e1, e2, e3,
    h1, h2, List.all_nil, true_and]
  rw [if_pos]
  simp only [maxUint64]
  omega

theorem FormatInt_eq (v : ℤ) (h1 : -(2 : ℤ) ^ 63 ≤ v) (h2 : v ≤ 2 ^ 63 - 1) :
    FormatInt v = if v < 0 then 45 :: digitsAux 20 v.natAbs [] else digitsAux 20 v.natAbs [] := by
  unfold FormatInt formatBits wrapUint64
  by_cases hv : v < 0
  · have e : ((-((v % 2 ^ 64).toNat : ℤ)) % 2 ^ 64).toNat = v.natAbs := by omega
    simp only [hv, if_true, decide_True, e]
  · have e : (v % 2 ^ 64).toNat = v.natAbs := by omega
    simp only [hv, if_false, decide_False, e, Bool.false_eq_true]

theorem specInt64Literal_FormatInt (v : ℤ) (h1 : -(2 : ℤ) ^ 63 ≤ v) (h2 : v ≤ 2 ^ 63 - 1) :
    specInt64Literal (FormatInt v) = some v := by
  rw [FormatInt_eq v h1 h2]
  obtain ⟨g1, g2⟩ := formatBits_spec v.natAbs (by omega)
  obtain ⟨e1, e2, e3⟩ := dropWhile_isSpace_of_digits _ (isDecimal_of_isJsonDigits _ g1)
  by_cases hv : v < 0
  · rw [if_pos hv]
    have hs : (45 :: digitsAux 20 v.natAbs []).dropWhile isSpace
        = (45 : UInt8) :: digitsAux 20 v.natAbs [] := by
      rw [List.dropWhile_cons, if_neg (by decide)]
    rw [specInt64Literal_minus _ 45 _ hs (by decide), e2, e3, g2, if_pos ⟨g1, rfl, by omega⟩]
    congr 1
    omega
  · rw [if_neg hv]
    have hh : (((digitsAux 20 v.natAbs []).dropWhile isSpace).map UInt8.toNat).head? ≠ some 45 := by
      rw [e1]
      cases hl : digitsAux 20 v.natAbs [] with
      | nil => simp
      | cons c t =>
        rw [hl] at g1
        have hc : isDigit c = true := by
          have := isDecimal_of_isJsonDigits _ g1
          simp only [isDecimal, List.all_cons, Bool.and_eq_true] at this
          exact this.2.1
        have hc2 := (isDigit_iff c).mp hc
        simp only [List.map_cons, List.head?_cons, ne_eq, Option.some.injEq]
        omega
    rw [specInt64Literal_plain _ hh, e1, e2, e3, g2, if_pos ⟨g1, rfl, by omega⟩]
    congr 1
    omega

theorem FormatUint_ne_null (u : ℕ) (h : u < 2 ^ 64) : FormatUint u ≠ NullBytes := by
  intro hcon
  have h1 := specUint64Literal_FormatUint u h
  have h0 : specUint64Literal NullBytes = none := by decide
  rw [hcon, h0] at h1
  simp at h1

theorem FormatInt_ne_null (v : ℤ) (h1 : -(2 : ℤ) ^ 63 ≤ v) (h2 : v ≤ 2 ^ 63 - 1) :
    FormatInt v ≠ NullBytes := by
  intro hcon
  have h3 := specInt64Literal_FormatInt v h1 h2
  have h0 : specInt64Literal NullBytes = none := by decide
  rw [hcon, h0] at h3
  simp at h3

/-! ## Formatting followed by `strconv` parsing -/

theorem specParseInt_FormatInt (v : ℤ) (h1 : -(2 : ℤ) ^ 63 ≤ v) (h2 : v ≤ 2 ^ 63 - 1) :
    specParseInt (FormatInt v) = some v := by
  rw [FormatInt_eq v h1 h2]
  obtain ⟨g1, g2⟩ := formatBits_spec v.natAbs (by omega)
  have gd := isDecimal_of_isJsonDigits _ g1
  by_cases hv : v < 0
  · rw [if_pos hv, specParseInt_minus _ _ (by decide), g2, if_pos ⟨gd, by omega⟩]
    congr 1
    omega
  · rw [if_neg hv, specParseInt_digits _ gd, g2, if_pos (by omega)]
    congr 1
    omega

theorem specParseUint_FormatUint (u : ℕ) (h : u < 2 ^ 64) :
    specParseUint (FormatUint u) = some u := by
  obtain ⟨g1, g2⟩ := formatBits_spec u h
  have gd := isDecimal_of_isJsonDigits _ g1
  simp only [FormatUint, formatBits, Bool.false_eq_true, if_false, specParseUint, gd, g2,
    true_and]
  rw [if_pos]
  simp only [maxUint64]
  omega

theorem FormatInt_length (v : ℤ) (h1 : -(2 : ℤ) ^ 63 ≤ v) (h2 : v ≤ 2 ^ 63 - 1) :
    (FormatInt v).length ≠ 0 := by
  intro hcon
  have h3 := specParseInt_FormatInt v h1 h2
  rw [List.length_eq_zero.mp hcon] at h3
  simp [specParseInt] at h3

theorem FormatUint_length (u : ℕ) (h : u < 2 ^ 64) : (FormatUint u).length ≠ 0 := by
  intro hcon
  have h3 := specParseUint_FormatUint u h
  rw [List.length_eq_zero.mp hcon] at h3
  simp [specParseUint, isDecimal] at h3

/-! ## `UnmarshalJSON` and `UnmarshalText` against the reference definitions -/

theorem specInt64Literal_range (data : List UInt8) (v : ℤ) (h : specInt64Literal data = some v) :
    -(2 : ℤ) ^ 63 ≤ v ∧ v ≤ 2 ^ 63 - 1 := by
  by_cases hh : ((data.dropWhile isSpace).map UInt8.toNat).head? = some 45
  · cases hs : data.dropWhile isSpace with
    | nil => simp [hs] at hh
    | cons c rest =>
      have hc : c.toNat = 45 := by simpa [hs] using hh
      rw [specInt64Literal_minus data c rest hs hc] at h
      split at h
      · rename_i hc
        injection h with h
        have := hc.2.2
        omega
      · simp at h
  · rw [specInt64Literal_plain data hh] at h
    split at h
    · rename_i hc
      injection h with h
      have := hc.2.2
      omega
    · simp at h

theorem specUint64Literal_range (data : List UInt8) (v : ℕ)
    (h : specUint64Literal data = some v) : v < 2 ^ 64 := by
  simp only [specUint64Literal] at h
  split at h
  · rename_i hc
    injection h with h
    subst h
    have := hc.2.2
    simp only [maxUint64] at this
    omega
  · simp at h

theorem ne_null_of_not_isNullLiteral (data : List UInt8) (h : isNullLiteral data = false) :
    data ≠ NullBytes := by
  intro hcon
  rw [hcon] at h
  revert h
  decide

theorem Int_UnmarshalJSON_of_spec (i : Int) (data : List UInt8) (v : ℤ)
    (hn : data ≠ NullBytes) (h : specInt64Literal data = some v) :
    i.UnmarshalJSON data = ({ Int_ := v, Valid := true, Set := true }, none) := by
  obtain ⟨h1, h2⟩ := specInt64Literal_range data v h
  simp [Int.UnmarshalJSON, hn, UnmarshalInt64_of_spec data 0 v h, wrapInt64_id v h1 h2]

theorem Uint_UnmarshalJSON_of_spec (u : Uint) (data : List UInt8) (v : ℕ)
    (hn : data ≠ NullBytes) (h : specUint64Literal data = some v) :
    u.UnmarshalJSON data = ({ Uint_ := v, Valid := true, Set := true }, none) := by
  have h1 := specUint64Literal_range data v h
  have h2 : v % 18446744073709551616 = v := by omega
  simp [Uint.UnmarshalJSON, hn, UnmarshalUint64_of_spec data 0 v h, h2]

theorem Int_UnmarshalJSON_of_spec_none (i : Int) (data : List UInt8)
    (hn : isNullLiteral data = false) (h : specInt64Literal data = none) :
    (i.UnmarshalJSON data).2 ≠ none := by
  obtain ⟨e, he⟩ := UnmarshalInt64_of_spec_none data 0 h hn
  simp [Int.UnmarshalJSON, ne_null_of_not_isNullLiteral data hn, he]

theorem Uint_UnmarshalJSON_of_spec_none (u : Uint) (data : List UInt8)
    (hn : isNullLiteral data = false) (h : specUint64Literal data = none) :
    (u.UnmarshalJSON data).2 ≠ none := by
  obtain ⟨e, he⟩ := UnmarshalUint64_of_spec_none data 0 h hn
  simp [Uint.UnmarshalJSON, ne_null_of_not_isNullLiteral data hn, he]

theorem Int_UnmarshalText_of_spec (i : Int) (text : List UInt8) (v : ℤ)
    (h : specParseInt text = some v) :
    i.UnmarshalText text = ({ Int_ := v, Valid := true, Set := true }, none) := by
  have hne : text.length ≠ 0 := by
    intro hcon
    rw [List.length_eq_zero.mp hcon] at h
    simp [specParseInt] at h
  have hr : -(2 : ℤ) ^ 63 ≤ v ∧ v ≤ 2 ^ 63 - 1 := by
    cases text with
    | nil => simp [specParseInt] at h
    | cons c t =>
      simp only [specParseInt] at h
      generalize (if c.toNat = 43 ∨ c.toNat = 45 then t else c :: t) = s1 at h
      generalize (if c.toNat = 45 then -(decimalValue s1 : ℤ) else (decimalValue s1 : ℤ)) = w at h
      split at h
      · rename_i hc
        injection h with h
        subst h
        exact hc.2
      · simp at h
  simp [Int.UnmarshalText, hne, ParseInt_of_spec text v h, wrapInt64_id v hr.1 hr.2]

theorem Int_UnmarshalText_of_spec_none (i : Int) (text : List UInt8) (hne : text ≠ [])
    (h : specParseInt text = none) :
    (i.UnmarshalText text).2 ≠ none ∧
      (i.UnmarshalText text).1 = { Int_ := i.Int_, Valid := false, Set := true } := by
  have hl : text.length ≠ 0 := by
    intro hcon
    exact hne (List.length_eq_zero.mp hcon)
  have he := ParseInt_of_spec_none text h
  simp [Int.UnmarshalText, hl, he]

theorem Uint_UnmarshalText_of_spec (u : Uint) (text : List UInt8) (v : ℕ)
    (h : specParseUint text = some v) :
    u.UnmarshalText text = ({ Uint_ := v, Valid := true, Set := true }, none) := by
  have hne : text.length ≠ 0 := by
    intro hcon
    rw [List.length_eq_zero.mp hcon] at h
    simp [specParseUint, isDecimal] at h
  have hr : v % 18446744073709551616 = v := by
    simp only [specParseUint] at h
    split at h
    · rename_i hc
      injection h with h
      subst h
      have := hc.2
      simp only [maxUint64] at this
      omega
    · simp at h
  simp [Uint.UnmarshalText, hne, ParseUint_of_spec text v h, hr]

theorem Uint_UnmarshalText_of_spec_none (u : Uint) (text : List UInt8) (hne : text ≠ [])
    (h : specParseUint text = none) :
    (u.UnmarshalText text).2 ≠ none ∧
      (u.UnmarshalText text).1 = { Uint_ := u.Uint_, Valid := false, Set := true } := by
  have hl : text.length ≠ 0 := by
    intro hcon
    exact hne (List.length_eq_zero.mp hcon)
  have he := ParseUint_of_spec_none text h
  simp [Uint.UnmarshalText, hl, he]

/-! ## Reachable states and the encoding of an arbitrary wrapper -/

theorem wrapInt64_range (z : ℤ) : -(2 : ℤ) ^ 63 ≤ wrapInt64 z ∧ wrapInt64 z ≤ 2 ^ 63 - 1 := by
  unfold wrapInt64
  omega

theorem Int_UnmarshalJSON_set (i : Int) (data : List UInt8) :
    (i.UnmarshalJSON data).1.Set = true := by
  unfold Int.UnmarshalJSON
  by_cases h1 : data = NullBytes
  · simp [h1]
  · by_cases h2 : (UnmarshalInt64 data 0).2 = none
    · simp [h1, h2]
    · simp [h1, h2]

theorem Int_UnmarshalText_set (i : Int) (text : List UInt8) :
    (i.UnmarshalText text).1.Set = true := by
  unfold Int.UnmarshalText
  by_cases h1 : text.length = 0
  · simp [h1]
  · by_cases h2 : (ParseInt text).2 = none
    · simp [h1, h2]
    · simp [h1, h2]

theorem Uint_UnmarshalJSON_set (u : Uint) (data : List UInt8) :
    (u.UnmarshalJSON data).1.Set = true := by
  unfold Uint.UnmarshalJSON
  by_cases h1 : data = NullBytes
  · simp [h1]
  · by_cases h2 : (UnmarshalUint64 data 0).2 = none
    · simp [h1, h2]
    · simp [h1, h2]

theorem Uint_UnmarshalText_set (u : Uint) (text : List UInt8) :
    (u.UnmarshalText text).1.Set = true := by
  unfold Uint.UnmarshalText
  by_cases h1 : text.length = 0
  · simp [h1]
  · by_cases h2 : (ParseUint text).2 = none
    · simp [h1, h2]
    · simp [h1, h2]

theorem Int_call_valid_set {α : Type} (ConvertAssign : ℤ → α → ℤ × Option Error) (i : Int)
    (c : IntCall α) :
    (Int.call ConvertAssign i c).Valid = true → (Int.call ConvertAssign i c).Set = true := by
  intro h
  cases c with
  | UnmarshalJSON data => exact Int_UnmarshalJSON_set i data
  | UnmarshalText text => exact Int_UnmarshalText_set i text
  | SetValid n => rfl
  | Scan value =>
    cases value with
    | none => simp [Int.call, Int.Scan] at h
    | some v => rfl

theorem Uint_call_valid_set {α : Type} (ConvertAssign : ℕ → α → ℕ × Option Error) (u : Uint)
    (c : UintCall α) :
    (Uint.call ConvertAssign u c).Valid = true → (Uint.call ConvertAssign u c).Set = true := by
  intro h
  cases c with
  | UnmarshalJSON data => exact Uint_UnmarshalJSON_set u data
  | UnmarshalText text => exact Uint_UnmarshalText_set u text
  | SetValid n => rfl
  | Scan value =>
    cases value with
    | none => simp [Uint.call, Uint.Scan] at h
    | some v => rfl

theorem Int_calls_valid_set {α : Type} (ConvertAssign : ℤ → α → ℤ × Option Error)
    (cs : List (IntCall α)) (i : Int) (hi : i.Valid = true → i.Set = true) :
    (Int.calls ConvertAssign i cs).Valid = true → (Int.calls ConvertAssign i cs).Set = true := by
  induction cs generalizing i with
  | nil => exact hi
  | cons c cs ih =>
    simp only [Int.calls, List.foldl_cons]
    exact ih (Int.call ConvertAssign i c) (Int_call_valid_set ConvertAssign i c)

theorem Uint_calls_valid_set {α : Type} (ConvertAssign : ℕ → α → ℕ × Option Error)
    (cs : List (UintCall α)) (u : Uint) (hu : u.Valid = true → u.Set = true) :
    (Uint.calls ConvertAssign u cs).Valid = true →
      (Uint.calls ConvertAssign u cs).Set = true := by
  induction cs generalizing u with
  | nil => exact hu
  | cons c cs ih =>
    simp only [Uint.calls, List.foldl_cons]
    exact ih (Uint.call ConvertAssign u c) (Uint_call_valid_set ConvertAssign u c)

theorem Int_MarshalJSON_null_iff (i : Int) : i.MarshalJSON.1 = NullBytes ↔ i.Valid = false := by
  obtain ⟨h1, h2⟩ := wrapInt64_range i.Int_
  unfold Int.MarshalJSON
  cases hv : i.Valid
  · simp
  · simp [FormatInt_ne_null _ h1 h2]

theorem Int_MarshalText_empty_iff (i : Int) : i.MarshalText.1 = [] ↔ i.Valid = false := by
  obtain ⟨h1, h2⟩ := wrapInt64_range i.Int_
  have hl := FormatInt_length _ h1 h2
  unfold Int.MarshalText
  cases hv : i.Valid
  · simp
  · simpa using hl

theorem Uint_MarshalJSON_null_iff (u : Uint) :
    u.MarshalJSON.1 = NullBytes ↔ u.Valid = false := by
  have h1 : u.Uint_ % 2 ^ 64 < 2 ^ 64 := Nat.mod_lt _ (by norm_num)
  have h2 := FormatUint_ne_null _ h1
  unfold Uint.MarshalJSON
  cases hv : u.Valid
  · simp
  · simpa using h2

theorem Uint_MarshalText_empty_iff (u : Uint) : u.MarshalText.1 = [] ↔ u.Valid = false := by
  have h1 : u.Uint_ % 2 ^ 64 < 2 ^ 64 := Nat.mod_lt _ (by norm_num)
  have hl := FormatUint_length _ h1
  unfold Uint.MarshalText
  cases hv : u.Valid
  · simp
  · simpa using hl

theorem Int_null_views (s : Int) (h : s.Valid = true → s.Set = true) :
    s.IsValid = s.Valid ∧ s.IsZero = !s.IsValid ∧ (s.Ptr = none ↔ s.IsValid = false) ∧
      (s.Value.1 = DriverValue.nil ↔ s.IsValid = false) ∧
      (s.MarshalJSON.1 = NullBytes ↔ s.IsValid = false) ∧
      (s.MarshalText.1 = [] ↔ s.IsValid = false) := by
  have hv : s.IsValid = s.Valid := by
    unfold Int.IsValid
    cases hvd : s.Valid
    · simp
    · simp [h hvd]
  refine ⟨hv, ?_, ?_, ?_, ?_, ?_⟩
  · rw [hv]
    rfl
  · rw [hv]
    unfold Int.Ptr
    cases s.Valid <;> simp
  · rw [hv]
    unfold Int.Value
    cases s.Valid <;> simp
  · rw [hv]
    exact Int_MarshalJSON_null_iff s
  · rw [hv]
    exact Int_MarshalText_empty_iff s

theorem Uint_null_views (s : Uint) (h : s.Valid = true → s.Set = true) :
    s.IsValid = s.Valid ∧ s.IsZero = !s.IsValid ∧ (s.Ptr = none ↔ s.IsValid = false) ∧
      (s.Value.1 = DriverValue.nil ↔ s.IsValid = false) ∧
      (s.MarshalJSON.1 = NullBytes ↔ s.IsValid = false) ∧
      (s.MarshalText.1 = [] ↔ s.IsValid = false) := by
  have hv : s.IsValid = s.Valid := by
    unfold Uint.IsValid
    cases hvd : s.Valid
    · simp
    · simp [h hvd]
  refine ⟨hv, ?_, ?_, ?_, ?_, ?_⟩
  · rw [hv]
    rfl
  · rw [hv]
    unfold Uint.Ptr
    cases s.Valid <;> simp
  · rw [hv]
    unfold Uint.Value
    cases s.Valid <;> simp
  · rw [hv]
    exact Uint_MarshalJSON_null_iff s
  · rw [hv]
    exact Uint_MarshalText_empty_iff s

/-! ## The claims -/

/-- C1: JSON round trip for `Int`.  For every `int` value `v` (64-bit) and every prior state
of the target, `IntFrom(v).MarshalJSON()` returns no error, and `UnmarshalJSON` of the bytes
it returns gives no error and leaves the target equal to `IntFrom(v)`, which is
`{Int: v, Valid: true, Set: true}`. -/
theorem int_json_round_trip (v : ℤ) (hlo : -(2 : ℤ) ^ 63 ≤ v) (hhi : v ≤ 2 ^ 63 - 1)
    (target : Int) :
    (IntFrom v).MarshalJSON.2 = none ∧
      target.UnmarshalJSON (IntFrom v).MarshalJSON.1 = (IntFrom v, none) ∧
      IntFrom v = { Int_ := v, Valid := true, Set := true } := by
  have hw := wrapInt64_id v hlo hhi
  have hm : (IntFrom v).MarshalJSON = (FormatInt v, none) := by
    simp [Int.MarshalJSON, IntFrom, NewInt, hw]
  refine ⟨by rw [hm], ?_, rfl⟩
  rw [hm]
  have hu := UnmarshalInt64_of_spec _ 0 v (specInt64Literal_FormatInt v hlo hhi)
  simp [Int.UnmarshalJSON, FormatInt_ne_null v hlo hhi, hu, hw, IntFrom, NewInt]

theorem int_json_round_trip_witness :
    (IntFrom (-9223372036854775808)).MarshalJSON.2 = none ∧
      Int.UnmarshalJSON { Int_ := 7, Valid := false, Set := false }
          (IntFrom (-9223372036854775808)).MarshalJSON.1
        = (IntFrom (-9223372036854775808), none) ∧
      IntFrom (-9223372036854775808)
        = { Int_ := -9223372036854775808, Valid := true, Set := true } :=
  int_json_round_trip (-9223372036854775808) (by decide) (by decide)
    { Int_ := 7, Valid := false, Set := false }

/-- C2: JSON round trip for `Uint`.  For every `uint` value `v` (64-bit, values above
`2^63 - 1` included) and every prior state of the target, `UintFrom(v).MarshalJSON()` returns
no error, and `UnmarshalJSON` of the bytes it returns gives no error and leaves the target
equal to `UintFrom(v)`, which is `{Uint: v, Valid: true, Set: true}`. -/
theorem uint_json_round_trip (v : ℕ) (hv : v < 2 ^ 64) (target : Uint) :
    (UintFrom v).MarshalJSON.2 = none ∧
      target.UnmarshalJSON (UintFrom v).MarshalJSON.1 = (UintFrom v, none) ∧
      UintFrom v = { Uint_ := v, Valid := true, Set := true } := by
  have hw : v % 18446744073709551616 = v := by omega
  have hm : (UintFrom v).MarshalJSON = (FormatUint v, none) := by
    simp [Uint.MarshalJSON, UintFrom, NewUint, hw]
  refine ⟨by rw [hm], ?_, rfl⟩
  rw [hm]
  have hu := UnmarshalUint64_of_spec _ 0 v (specUint64Literal_FormatUint v hv)
  simp [Uint.UnmarshalJSON, FormatUint_ne_null v hv, hu, hw, UintFrom, NewUint]

theorem uint_json_round_trip_witness :
    (UintFrom 18446744073709551615).MarshalJSON.2 = none ∧
      Uint.UnmarshalJSON { Uint_ := 7, Valid := false, Set := false }
          (UintFrom 18446744073709551615).MarshalJSON.1
        = (UintFrom 18446744073709551615, none) ∧
      UintFrom 18446744073709551615
        = { Uint_ := 18446744073709551615, Valid := true, Set := true } :=
  uint_json_round_trip 18446744073709551615 (by decide)
    { Uint_ := 7, Valid := false, Set := false }

/-- C3: the null token in both directions, for `Int` and `Uint`.  A wrapper with
`Valid = false`, whatever its value and `Set` fields, marshals to exactly the bytes `null`
with no error; and from every prior state `UnmarshalJSON` of the bytes `null` returns no
error and leaves value `0`, `Valid = false`, `Set = true`. -/
theorem null_token_both_directions (w i : Int) (wu u : Uint) (hw : w.Valid = false)
    (hwu : wu.Valid = false) :
    NullBytes = [110, 117, 108, 108] ∧
      w.MarshalJSON = (NullBytes, none) ∧
      wu.MarshalJSON = (NullBytes, none) ∧
      i.UnmarshalJSON NullBytes = ({ Int_ := 0, Valid := false, Set := true }, none) ∧
      u.UnmarshalJSON NullBytes = ({ Uint_ := 0, Valid := false, Set := true }, none) := by
  refine ⟨rfl, ?_, ?_, ?_, ?_⟩
  · simp [Int.MarshalJSON, hw]
  · simp [Uint.MarshalJSON, hwu]
  · simp [Int.UnmarshalJSON]
  · simp [Uint.UnmarshalJSON]

theorem null_token_both_directions_witness :
    NullBytes = [110, 117, 108, 108] ∧
      Int.MarshalJSON { Int_ := 5, Valid := false, Set := false } = (NullBytes, none) ∧
      Uint.MarshalJSON { Uint_ := 6, Valid := false, Set := true } = (NullBytes, none) ∧
      Int.UnmarshalJSON { Int_ := 3, Valid := true, Set := false } NullBytes
        = ({ Int_ := 0, Valid := false, Set := true }, none) ∧
      Uint.UnmarshalJSON { Uint_ := 4, Valid := true, Set := false } NullBytes
        = ({ Uint_ := 0, Valid := false, Set := true }, none) :=
  null_token_both_directions { Int_ := 5, Valid := false, Set := false }
    { Int_ := 3, Valid := true, Set := false } { Uint_ := 6, Valid := false, Set := true }
    { Uint_ := 4, Valid := true, Set := false } rfl rfl

/-- C4, as stated, fails: the null token padded with white space (here a space followed by
`null`) is not the null token and not an integer literal, yet `UnmarshalJSON` returns no
error on it, for `Int` and for `Uint`, and leaves the wrapper valid with value `0`. -/
theorem padded_null_is_accepted :
    ([32, 110, 117, 108, 108] : List UInt8) ≠ NullBytes ∧
      specInt64Literal [32, 110, 117, 108, 108] = none ∧
      specUint64Literal [32, 110, 117, 108, 108] = none ∧
      Int.UnmarshalJSON { Int_ := 5, Valid := false, Set := false } [32, 110, 117, 108, 108]
        = ({ Int_ := 0, Valid := true, Set := true }, none) ∧
      Uint.UnmarshalJSON { Uint_ := 5, Valid := false, Set := false } [32, 110, 117, 108, 108]
        = ({ Uint_ := 0, Valid := true, Set := true }, none) := by
  decide

/-- C4, amended: for every input that is not the null token, bare or surrounded by JSON
white space, and every prior state, `UnmarshalJSON` (`Int` and `Uint`) returns no error
exactly when the input is a well-formed 64-bit integer literal of the variant's signedness
(JSON number syntax without fraction or exponent, optionally surrounded by JSON white space,
within the signed range for `Int` and unsigned, without sign, for `Uint`); it then sets
`Valid = true`, `Set = true` and the value to the literal's number; on every other such
input it returns an error. -/
theorem unmarshalJSON_accepts_only_integer_literals (data : List UInt8)
    (hn : isNullLiteral data = false) (i : Int) (u : Uint) :
    ((i.UnmarshalJSON data).2 = none ↔ ∃ v, specInt64Literal data = some v) ∧
      (∀ v, specInt64Literal data = some v →
        i.UnmarshalJSON data = ({ Int_ := v, Valid := true, Set := true }, none)) ∧
      ((u.UnmarshalJSON data).2 = none ↔ ∃ v, specUint64Literal data = some v) ∧
      (∀ v, specUint64Literal data = some v →
        u.UnmarshalJSON data = ({ Uint_ := v, Valid := true, Set := true }, none)) := by
  have hne := ne_null_of_not_isNullLiteral data hn
  refine ⟨⟨?_, ?_⟩, ?_, ⟨?_, ?_⟩, ?_⟩
  · intro h
    by_contra hcon
    have hnone : specInt64Literal data = none := by
      cases hs : specInt64Literal data with
      | none => rfl
      | some v => exact absurd ⟨v, hs⟩ hcon
    exact Int_UnmarshalJSON_of_spec_none i data hn hnone h
  · rintro ⟨v, hv⟩
    rw [Int_UnmarshalJSON_of_spec i data v hne hv]
  · intro v hv
    exact Int_UnmarshalJSON_of_spec i data v hne hv
  · intro h
    by_contra hcon
    have hnone : specUint64Literal data = none := by
      cases hs : specUint64Literal data with
      | none => rfl
      | some v => exact absurd ⟨v, hs⟩ hcon
    exact Uint_UnmarshalJSON_of_spec_none u data hn hnone h
  · rintro ⟨v, hv⟩
    rw [Uint_UnmarshalJSON_of_spec u data v hne hv]
  · intro v hv
    exact Uint_UnmarshalJSON_of_spec u data v hne hv

theorem unmarshalJSON_accepts_only_integer_literals_witness :
    isNullLiteral [32, 45, 52, 50, 10] = false ∧
      Int.UnmarshalJSON { Int_ := 5, Valid := false, Set := false } [32, 45, 52, 50, 10]
        = ({ Int_ := -42, Valid := true, Set := true }, none) ∧
      ¬ (Uint.UnmarshalJSON { Uint_ := 5, Valid := false, Set := false }
        [32, 45, 52, 50, 10]).2 = none :=
  ⟨by decide,
    (unmarshalJSON_accepts_only_integer_literals [32, 45, 52, 50, 10] (by decide)
      { Int_ := 5, Valid := false, Set := false }
      { Uint_ := 5, Valid := false, Set := false }).2.1 (-42) (by decide),
    fun h => by
      obtain ⟨v, hv⟩ := (unmarshalJSON_accepts_only_integer_literals [32, 45, 52, 50, 10]
        (by decide) { Int_ := 5, Valid := false, Set := false }
        { Uint_ := 5, Valid := false, Set := false }).2.2.1.mp h
      have h0 : specUint64Literal [32, 45, 52, 50, 10] = none := by decide
      rw [h0] at hv
      exact Option.noConfusion hv⟩

/-- C5: the state after a failed `UnmarshalJSON`, for `Int` and `Uint`.  For every prior
state and every input on which `UnmarshalJSON` returns an error, afterwards `Set = true`
and the value field and the `Valid` field are what they were before the call. -/
theorem unmarshalJSON_error_state (i : Int) (u : Uint) (data : List UInt8) :
    ((i.UnmarshalJSON data).2 ≠ none →
        (i.UnmarshalJSON data).1 = { Int_ := i.Int_, Valid := i.Valid, Set := true }) ∧
      ((u.UnmarshalJSON data).2 ≠ none →
        (u.UnmarshalJSON data).1 = { Uint_ := u.Uint_, Valid := u.Valid, Set := true }) := by
  constructor
  · intro h
    unfold Int.UnmarshalJSON at h ⊢
    by_cases h1 : data = NullBytes
    · simp [h1] at h
    · by_cases h2 : (UnmarshalInt64 data 0).2 = none
      · simp [h1, h2] at h
      · simp [h1, h2]
  · intro h
    unfold Uint.UnmarshalJSON at h ⊢
    by_cases h1 : data = NullBytes
    · simp [h1] at h
    · by_cases h2 : (UnmarshalUint64 data 0).2 = none
      · simp [h1, h2] at h
      · simp [h1, h2]

theorem unmarshalJSON_error_state_witness :
    (Int.UnmarshalJSON { Int_ := 5, Valid := true, Set := false } [97, 98, 99]).2 ≠ none ∧
      (Int.UnmarshalJSON { Int_ := 5, Valid := true, Set := false } [97, 98, 99]).1
        = { Int_ := 5, Valid := true, Set := true } ∧
      (Uint.UnmarshalJSON { Uint_ := 6, Valid := false, Set := false } [49, 46, 53]).2 ≠ none ∧
      (Uint.UnmarshalJSON { Uint_ := 6, Valid := false, Set := false } [49, 46, 53]).1
        = { Uint_ := 6, Valid := false, Set := true } :=
  ⟨by decide,
    (unmarshalJSON_error_state { Int_ := 5, Valid := true, Set := false }
      { Uint_ := 6, Valid := false, Set := false } [97, 98, 99]).1 (by decide),
    by decide,
    (unmarshalJSON_error_state { Int_ := 5, Valid := true, Set := false }
      { Uint_ := 6, Valid := false, Set := false } [49, 46, 53]).2 (by decide)⟩

/-- C6: plain-text round trip, for `Int` and `Uint`.  `MarshalText` never returns an error;
and for every value of the variant's primitive type (64-bit) and every prior state of the
target, `UnmarshalText` of the bytes that `MarshalText` returns for `IntFrom(v)` (resp.
`UintFrom(n)`) gives no error and leaves the target equal to that wrapper,
`{v, Valid: true, Set: true}`. -/
theorem text_round_trip (v : ℤ) (hlo : -(2 : ℤ) ^ 63 ≤ v) (hhi : v ≤ 2 ^ 63 - 1) (n : ℕ)
    (hn : n < 2 ^ 64) (w target : Int) (wu targetU : Uint) :
    w.MarshalText.2 = none ∧ wu.MarshalText.2 = none ∧
      target.UnmarshalText (IntFrom v).MarshalText.1 = (IntFrom v, none) ∧
      IntFrom v = { Int_ := v, Valid := true, Set := true } ∧
      targetU.UnmarshalText (UintFrom n).MarshalText.1 = (UintFrom n, none) ∧
      UintFrom n = { Uint_ := n, Valid := true, Set := true } := by
  refine ⟨?_, ?_, ?_, rfl, ?_, rfl⟩
  · unfold Int.MarshalText
    split <;> rfl
  · unfold Uint.MarshalText
    split <;> rfl
  · have hm : (IntFrom v).MarshalText = (FormatInt v, none) := by
      simp [Int.MarshalText, IntFrom, NewInt, wrapInt64_id v hlo hhi]
    rw [hm, Int_UnmarshalText_of_spec target _ v (specParseInt_FormatInt v hlo hhi)]
    rfl
  · have hw : n % 18446744073709551616 = n := by omega
    have hm : (UintFrom n).MarshalText = (FormatUint n, none) := by
      simp [Uint.MarshalText, UintFrom, NewUint, hw]
    rw [hm, Uint_UnmarshalText_of_spec targetU _ n (specParseUint_FormatUint n hn)]
    rfl

theorem text_round_trip_witness :
    Int.MarshalText { Int_ := 3, Valid := false, Set := false } = ([], none) ∧
      Int.UnmarshalText { Int_ := 1, Valid := false, Set := false }
          (IntFrom (-9223372036854775808)).MarshalText.1
        = (IntFrom (-9223372036854775808), none) ∧
      Uint.UnmarshalText { Uint_ := 2, Valid := true, Set := false }
          (UintFrom 18446744073709551615).MarshalText.1
        = (UintFrom 18446744073709551615, none) :=
  ⟨by decide,
    (text_round_trip (-9223372036854775808) (by decide) (by decide) 18446744073709551615
      (by decide) { Int_ := 3, Valid := false, Set := false }
      { Int_ := 1, Valid := false, Set := false } { Uint_ := 0, Valid := true, Set := true }
      { Uint_ := 2, Valid := true, Set := false }).2.2.1,
    (text_round_trip (-9223372036854775808) (by decide) (by decide) 18446744073709551615
      (by decide) { Int_ := 3, Valid := false, Set := false }
      { Int_ := 1, Valid := false, Set := false } { Uint_ := 0, Valid := true, Set := true }
      { Uint_ := 2, Valid := true, Set := false }).2.2.2.2.1⟩

/-- C7: `UnmarshalText` on a non-empty input, for `Int` and `Uint`.  After the call
`Set = true`, and `Valid` is true exactly when the input parses as a base-10 integer of the
variant's signedness within 64 bits; in that case the value is the parsed number and no error
is returned; when the parse fails, an error is returned, `Valid = false` and the value field
is what it was before the call. -/
theorem unmarshalText_nonempty (text : List UInt8) (hne : text ≠ []) (i : Int) (u : Uint) :
    ((i.UnmarshalText text).1.Set = true ∧
        ((i.UnmarshalText text).1.Valid = true ↔ ∃ v, specParseInt text = some v) ∧
        (∀ v, specParseInt text = some v →
          i.UnmarshalText text = ({ Int_ := v, Valid := true, Set := true }, none)) ∧
        (specParseInt text = none →
          (i.UnmarshalText text).2 ≠ none ∧
            (i.UnmarshalText text).1 = { Int_ := i.Int_, Valid := false, Set := true })) ∧
      ((u.UnmarshalText text).1.Set = true ∧
        ((u.UnmarshalText text).1.Valid = true ↔ ∃ v, specParseUint text = some v) ∧
        (∀ v, specParseUint text = some v →
          u.UnmarshalText text = ({ Uint_ := v, Valid := true, Set := true }, none)) ∧
        (specParseUint text = none →
          (u.UnmarshalText text).2 ≠ none ∧
            (u.UnmarshalText text).1 = { Uint_ := u.Uint_, Valid := false, Set := true })) := by
  constructor
  · cases hs : specParseInt text with
    | none =>
      obtain ⟨h1, h2⟩ := Int_UnmarshalText_of_spec_none i text hne hs
      refine ⟨by rw [h2], ?_, ?_, fun _ => ⟨h1, h2⟩⟩
      · rw [h2]
        simp
      · intro v hv
        exact Option.noConfusion hv
    | some v =>
      have h1 := Int_UnmarshalText_of_spec i text v hs
      refine ⟨by rw [h1], ?_, ?_, fun hv => Option.noConfusion hv⟩
      · rw [h1]
        simp
      · intro v2 hv
        injection hv with hv
        rw [← hv]
        exact h1
  · cases hs : specParseUint text with
    | none =>
      obtain ⟨h1, h2⟩ := Uint_UnmarshalText_of_spec_none u text hne hs
      refine ⟨by rw [h2], ?_, ?_, fun _ => ⟨h1, h2⟩⟩
      · rw [h2]
        simp
      · intro v hv
        exact Option.noConfusion hv
    | some v =>
      have h1 := Uint_UnmarshalText_of_spec u text v hs
      refine ⟨by rw [h1], ?_, ?_, fun hv => Option.noConfusion hv⟩
      · rw [h1]
        simp
      · intro v2 hv
        injection hv with hv
        rw [← hv]
        exact h1

theorem unmarshalText_nonempty_witness :
    ([45, 49, 50] : List UInt8) ≠ [] ∧
      Int.UnmarshalText { Int_ := 5, Valid := false, Set := false } [45, 49, 50]
        = ({ Int_ := -12, Valid := true, Set := true }, none) ∧
      (Uint.UnmarshalText { Uint_ := 5, Valid := true, Set := false } [45, 49, 50]).2 ≠ none ∧
      (Uint.UnmarshalText { Uint_ := 5, Valid := true, Set := false } [45, 49, 50]).1
        = { Uint_ := 5, Valid := false, Set := true } :=
  ⟨by decide,
    (unmarshalText_nonempty [45, 49, 50] (by decide)
      { Int_ := 5, Valid := false, Set := false }
      { Uint_ := 5, Valid := true, Set := false }).1.2.2.1 (-12) (by decide),
    ((unmarshalText_nonempty [45, 49, 50] (by decide)
      { Int_ := 5, Valid := false, Set := false }
      { Uint_ := 5, Valid := true, Set := false }).2.2.2.2 (by decide)).1,
    ((unmarshalText_nonempty [45, 49, 50] (by decide)
      { Int_ := 5, Valid := false, Set := false }
      { Uint_ := 5, Valid := true, Set := false }).2.2.2.2 (by decide)).2⟩

/-- C8: empty text means invalid, for `Int` and `Uint`.  A wrapper with `Valid = false`
marshals to the empty byte sequence with no error; and from every prior state `UnmarshalText`
of the empty input returns no error and leaves `Valid = false`, `Set = true` and the value
field what it was before the call. -/
theorem empty_text_means_invalid (w i : Int) (wu u : Uint) (hw : w.Valid = false)
    (hwu : wu.Valid = false) :
    w.MarshalText = ([], none) ∧ wu.MarshalText = ([], none) ∧
      i.UnmarshalText [] = ({ Int_ := i.Int_, Valid := false, Set := true }, none) ∧
      u.UnmarshalText [] = ({ Uint_ := u.Uint_, Valid := false, Set := true }, none) := by
  refine ⟨?_, ?_, ?_, ?_⟩
  · simp [Int.MarshalText, hw]
  · simp [Uint.MarshalText, hwu]
  · simp [Int.UnmarshalText]
  · simp [Uint.UnmarshalText]

theorem empty_text_means_invalid_witness :
    Int.MarshalText { Int_ := 5, Valid := false, Set := false } = ([], none) ∧
      Uint.MarshalText { Uint_ := 6, Valid := false, Set := true } = ([], none) ∧
      Int.UnmarshalText { Int_ := 3, Valid := true, Set := false } []
        = ({ Int_ := 3, Valid := false, Set := true }, none) ∧
      Uint.UnmarshalText { Uint_ := 4, Valid := true, Set := false } []
        = ({ Uint_ := 4, Valid := false, Set := true }, none) :=
  empty_text_means_invalid { Int_ := 5, Valid := false, Set := false }
    { Int_ := 3, Valid := true, Set := false } { Uint_ := 6, Valid := false, Set := true }
    { Uint_ := 4, Valid := true, Set := false } rfl rfl

/-- C9, as stated, fails: `UnmarshalText` on the empty input returns no error from both
prior states, yet the wrappers end in different states, because the value field is left as
it was (for `Int` and for `Uint`). -/
theorem unmarshalText_empty_keeps_value :
    (Int.UnmarshalText { Int_ := 1, Valid := true, Set := true } []).2 = none ∧
      (Int.UnmarshalText { Int_ := 2, Valid := true, Set := true } []).2 = none ∧
      (Int.UnmarshalText { Int_ := 1, Valid := true, Set := true } []).1
        ≠ (Int.UnmarshalText { Int_ := 2, Valid := true, Set := true } []).1 ∧
      (Uint.UnmarshalText { Uint_ := 1, Valid := true, Set := true } []).2 = none ∧
      (Uint.UnmarshalText { Uint_ := 2, Valid := true, Set := true } []).2 = none ∧
      (Uint.UnmarshalText { Uint_ := 1, Valid := true, Set := true } []).1
        ≠ (Uint.UnmarshalText { Uint_ := 2, Valid := true, Set := true } []).1 := by
  decide

/-- C9, amended: for every input on which `UnmarshalJSON` returns no error, and every
non-empty input on which `UnmarshalText` returns no error (`Int` and `Uint`), the resulting
value, `Valid` and `Set` fields are determined by the input alone: two wrappers in
arbitrary prior states end in the same state.  On the empty input `UnmarshalText` returns no
error and sets `Valid = false` and `Set = true`, and leaves the value field as it was. -/
theorem deserialization_determined_by_input (i j : Int) (u w : Uint) (data : List UInt8) :
    ((i.UnmarshalJSON data).2 = none → (j.UnmarshalJSON data).2 = none →
        (i.UnmarshalJSON data).1 = (j.UnmarshalJSON data).1) ∧
      (data ≠ [] → (i.UnmarshalText data).2 = none → (j.UnmarshalText data).2 = none →
        (i.UnmarshalText data).1 = (j.UnmarshalText data).1) ∧
      i.UnmarshalText [] = ({ Int_ := i.Int_, Valid := false, Set := true }, none) ∧
      ((u.UnmarshalJSON data).2 = none → (w.UnmarshalJSON data).2 = none →
        (u.UnmarshalJSON data).1 = (w.UnmarshalJSON data).1) ∧
      (data ≠ [] → (u.UnmarshalText data).2 = none → (w.UnmarshalText data).2 = none →
        (u.UnmarshalText data).1 = (w.UnmarshalText data).1) ∧
      u.UnmarshalText [] = ({ Uint_ := u.Uint_, Valid := false, Set := true }, none) := by
  refine ⟨?_, ?_, ?_, ?_, ?_, ?_⟩
  · intro h1 _
    unfold Int.UnmarshalJSON at h1 ⊢
    by_cases hd : data = NullBytes
    · simp [hd]
    · by_cases h2 : (UnmarshalInt64 data 0).2 = none
      · simp [hd, h2]
      · simp [hd, h2] at h1
  · intro hne h1 _
    have hl : data.length ≠ 0 := fun hcon => hne (List.length_eq_zero.mp hcon)
    unfold Int.UnmarshalText at h1 ⊢
    by_cases h2 : (ParseInt data).2 = none
    · simp [hl, h2]
    · simp [hl, h2] at h1
  · simp [Int.UnmarshalText]
  · intro h1 _
    unfold Uint.UnmarshalJSON at h1 ⊢
    by_cases hd : data = NullBytes
    · simp [hd]
    · by_cases h2 : (UnmarshalUint64 data 0).2 = none
      · simp [hd, h2]
      · simp [hd, h2] at h1
  · intro hne h1 _
    have hl : data.length ≠ 0 := fun hcon => hne (List.length_eq_zero.mp hcon)
    unfold Uint.UnmarshalText at h1 ⊢
    by_cases h2 : (ParseUint data).2 = none
    · simp [hl, h2]
    · simp [hl, h2] at h1
  · simp [Uint.UnmarshalText]

theorem deserialization_determined_by_input_witness :
    (Int.UnmarshalJSON { Int_ := 1, Valid := false, Set := false } [52, 50]).2 = none ∧
      (Int.UnmarshalJSON { Int_ := 1, Valid := false, Set := false } [52, 50]).1
        = (Int.UnmarshalJSON { Int_ := 2, Valid := true, Set := true } [52, 50]).1 ∧
      (Uint.UnmarshalText { Uint_ := 3, Valid := false, Set := false } [52, 50]).2 = none ∧
      (Uint.UnmarshalText { Uint_ := 3, Valid := false, Set := false } [52, 50]).1
        = (Uint.UnmarshalText { Uint_ := 4, Valid := true, Set := false } [52, 50]).1 :=
  ⟨by decide,
    (deserialization_determined_by_input { Int_ := 1, Valid := false, Set := false }
      { Int_ := 2, Valid := true, Set := true } { Uint_ := 3, Valid := false, Set := false }
      { Uint_ := 4, Valid := true, Set := false } [52, 50]).1 (by decide) (by decide),
    by decide,
    (deserialization_determined_by_input { Int_ := 1, Valid := false, Set := false }
      { Int_ := 2, Valid := true, Set := true } { Uint_ := 3, Valid := false, Set := false }
      { Uint_ := 4, Valid := true, Set := false } [52, 50]).2.2.2.2.1 (by decide) (by decide)
      (by decide)⟩

/-- C10: the number `Uint.Value` returns.  For every `Uint` (64-bit) with `Valid = true`,
`Value()` returns no error and the signed 64-bit integer with the same 64-bit pattern as the
wrapped value: equal to it when it is at most `2^63 - 1`, and equal to it minus `2^64`, a
negative number, when it is at least `2^63`; so the storage value equals the wrapped value
exactly when the wrapped value is at most `2^63 - 1`. -/
theorem uint_value_numeric (u : Uint) (hv : u.Valid = true) (hr : u.Uint_ < 2 ^ 64) :
    ∃ r : ℤ, u.Value = (DriverValue.int64 r, none) ∧
      -(2 : ℤ) ^ 63 ≤ r ∧ r ≤ 2 ^ 63 - 1 ∧
      (u.Uint_ ≤ 2 ^ 63 - 1 → r = (u.Uint_ : ℤ)) ∧
      (2 ^ 63 ≤ u.Uint_ → r = (u.Uint_ : ℤ) - 2 ^ 64 ∧ r < 0) ∧
      (r = (u.Uint_ : ℤ) ↔ u.Uint_ ≤ 2 ^ 63 - 1) := by
  refine ⟨wrapInt64 (u.Uint_ : ℤ), ?_, ?_⟩
  · simp [Uint.Value, hv]
  · unfold wrapInt64
    refine ⟨?_, ?_, ?_, ?_, ?_⟩
    · omega
    · omega
    · intro h
      omega
    · intro h
      omega
    · constructor
      · intro h
        omega
      · intro h
        omega

theorem uint_value_numeric_witness :
    ∃ r : ℤ, Uint.Value { Uint_ := 18446744073709551615, Valid := true, Set := true }
        = (DriverValue.int64 r, none) ∧
      -(2 : ℤ) ^ 63 ≤ r ∧ r ≤ 2 ^ 63 - 1 ∧
      (18446744073709551615 ≤ 2 ^ 63 - 1 → r = ((18446744073709551615 : ℕ) : ℤ)) ∧
      (2 ^ 63 ≤ 18446744073709551615 → r = ((18446744073709551615 : ℕ) : ℤ) - 2 ^ 64 ∧ r < 0) ∧
      (r = ((18446744073709551615 : ℕ) : ℤ) ↔ 18446744073709551615 ≤ 2 ^ 63 - 1) :=
  uint_value_numeric { Uint_ := 18446744073709551615, Valid := true, Set := true } rfl
    (by decide)

/-- C11: null-ness of `Value`, for `Int` and `Uint`.  `Value()` never returns an error; it
returns the nil storage value exactly when `Valid = false`, whatever `Set` and the value
field are; and for an `Int` with `Valid = true` (its value a 64-bit `int`) it returns the
`int64` numerically equal to the wrapped value. -/
theorem value_nullness (i : Int) (u : Uint) :
    i.Value.2 = none ∧ u.Value.2 = none ∧
      (i.Value.1 = DriverValue.nil ↔ i.Valid = false) ∧
      (u.Value.1 = DriverValue.nil ↔ u.Valid = false) ∧
      (i.Valid = true → -(2 : ℤ) ^ 63 ≤ i.Int_ → i.Int_ ≤ 2 ^ 63 - 1 →
        i.Value = (DriverValue.int64 i.Int_, none)) := by
  refine ⟨?_, ?_, ?_, ?_, ?_⟩
  · unfold Int.Value
    split <;> rfl
  · unfold Uint.Value
    split <;> rfl
  · unfold Int.Value
    cases i.Valid <;> simp
  · unfold Uint.Value
    cases u.Valid <;> simp
  · intro hv hlo hhi
    simp [Int.Value, hv, wrapInt64_id i.Int_ hlo hhi]

theorem value_nullness_witness :
    Int.Value { Int_ := -9223372036854775808, Valid := true, Set := false }
        = (DriverValue.int64 (-9223372036854775808), none) ∧
      ((Int.Value { Int_ := 7, Valid := false, Set := true }).1 = DriverValue.nil ↔
        (false = false)) :=
  ⟨(value_nullness { Int_ := -9223372036854775808, Valid := true, Set := false }
      { Uint_ := 1, Valid := true, Set := true }).2.2.2.2 rfl (by decide) (by decide),
    (value_nullness { Int_ := 7, Valid := false, Set := true }
      { Uint_ := 1, Valid := true, Set := true }).2.2.1⟩

/-- C12: `Scan`, for `Int` and `Uint`, the coercion routine being an arbitrary external
function that writes a value and returns an error or nil.  From every prior state `Scan(nil)`
returns no error and leaves value `0`, `Valid = false`, `Set = false`; for a non-nil value,
after `Scan` both `Valid` and `Set` are true whether or not the coercion fails, the error
returned is the coercion routine's, and the value field is what the coercion routine wrote;
so a coercion that yields 9 without error gives `{9, true, true}`. -/
theorem scan_behaviour {α : Type} (ConvertAssign : ℤ → α → ℤ × Option Error)
    (ConvertAssignU : ℕ → α → ℕ × Option Error) (i : Int) (u : Uint) (v : α) :
    Int.Scan ConvertAssign i none = ({ Int_ := 0, Valid := false, Set := false }, none) ∧
      Int.Scan ConvertAssign i (some v)
        = ({ Int_ := (ConvertAssign i.Int_ v).1, Valid := true, Set := true },
            (ConvertAssign i.Int_ v).2) ∧
      (ConvertAssign i.Int_ v = (9, none) →
        Int.Scan ConvertAssign i (some v)
          = ({ Int_ := 9, Valid := true, Set := true }, none)) ∧
      Uint.Scan ConvertAssignU u none = ({ Uint_ := 0, Valid := false, Set := false }, none) ∧
      Uint.Scan ConvertAssignU u (some v)
        = ({ Uint_ := (ConvertAssignU u.Uint_ v).1, Valid := true, Set := true },
            (ConvertAssignU u.Uint_ v).2) ∧
      (ConvertAssignU u.Uint_ v = (9, none) →
        Uint.Scan ConvertAssignU u (some v)
          = ({ Uint_ := 9, Valid := true, Set := true }, none)) := by
  refine ⟨rfl, rfl, ?_, rfl, rfl, ?_⟩
  · intro h
    simp [Int.Scan, h]
  · intro h
    simp [Uint.Scan, h]

theorem scan_behaviour_witness :
    Int.Scan (fun (_ : ℤ) (v : ℤ) => (v, (none : Option Error)))
        { Int_ := 3, Valid := false, Set := false } (some 9)
        = ({ Int_ := 9, Valid := true, Set := true }, none) ∧
      Uint.Scan (fun (_ : ℕ) (v : ℤ) => (v.toNat, (none : Option Error)))
        { Uint_ := 3, Valid := false, Set := false } (some 9)
        = ({ Uint_ := 9, Valid := true, Set := true }, none) :=
  ⟨(scan_behaviour (fun (_ : ℤ) (v : ℤ) => (v, (none : Option Error)))
      (fun (_ : ℕ) (v : ℤ) => (v.toNat, (none : Option Error)))
      { Int_ := 3, Valid := false, Set := false }
      { Uint_ := 3, Valid := false, Set := false } 9).2.2.1 rfl,
    (scan_behaviour (fun (_ : ℤ) (v : ℤ) => (v, (none : Option Error)))
      (fun (_ : ℕ) (v : ℤ) => (v.toNat, (none : Option Error)))
      { Int_ := 3, Valid := false, Set := false }
      { Uint_ := 3, Valid := false, Set := false } 9).2.2.2.2.2 rfl⟩

/-- C13: constructor and query flags, for `Int` and `Uint`.  `NewInt(x, b)` is exactly
`{value: x, Valid: b, Set: true}`, so `x` is stored even when `b` is false; `IsValid()` is
true exactly when both `Set` and `Valid` are true, and `IsSet()` equals `Set`; the wrapper
built with `b = false` has `IsSet() = true` and `IsValid() = false`; and `IntFrom(x)` equals
`NewInt(x, true)`.  The same holds for `NewUint`, `UintFrom` and the `Uint` queries. -/
theorem constructor_and_query_flags (x : ℤ) (n : ℕ) (b : Bool) (w : Int) (wu : Uint) :
    (NewInt x b = { Int_ := x, Valid := b, Set := true } ∧
        (w.IsValid = true ↔ w.Set = true ∧ w.Valid = true) ∧ w.IsSet = w.Set ∧
        (NewInt x false).IsSet = true ∧ (NewInt x false).IsValid = false ∧
        IntFrom x = NewInt x true) ∧
      (NewUint n b = { Uint_ := n, Valid := b, Set := true } ∧
        (wu.IsValid = true ↔ wu.Set = true ∧ wu.Valid = true) ∧ wu.IsSet = wu.Set ∧
        (NewUint n false).IsSet = true ∧ (NewUint n false).IsValid = false ∧
        UintFrom n = NewUint n true) := by
  refine ⟨⟨rfl, ?_, rfl, rfl, rfl, rfl⟩, ⟨rfl, ?_, rfl, rfl, rfl, rfl⟩⟩
  · simp [Int.IsValid]
  · simp [Uint.IsValid]

/-- C14: construction from an optional pointer, for `Int` and `Uint`, the pointer being an
optional value.  `IntFromPtr(nil)` equals `NewInt(0, false)`, which is
`{0, Valid: false, Set: true}`, and `IntFromPtr` of a pointer to `v` equals
`NewInt(v, true)`, which is `{v, Valid: true, Set: true}`; likewise `UintFromPtr` with
`NewUint`. -/
theorem from_optional_pointer (v : ℤ) (n : ℕ) :
    (IntFromPtr none = NewInt 0 false ∧
        NewInt 0 false = { Int_ := 0, Valid := false, Set := true } ∧
        IntFromPtr (some v) = NewInt v true ∧
        NewInt v true = { Int_ := v, Valid := true, Set := true }) ∧
      (UintFromPtr none = NewUint 0 false ∧
        NewUint 0 false = { Uint_ := 0, Valid := false, Set := true } ∧
        UintFromPtr (some n) = NewUint n true ∧
        NewUint n true = { Uint_ := n, Valid := true, Set := true }) :=
  ⟨⟨rfl, rfl, rfl, rfl⟩, ⟨rfl, rfl, rfl, rfl⟩⟩

/-- C15: `Ptr`, for `Int` and `Uint`, the pointer being an optional value.  `Ptr()` is absent
when `Valid = false` and otherwise present, dereferencing to the value field; hence
`IntFromPtr(p).Ptr()` is absent exactly when `p` is absent and otherwise dereferences to the
same number as `p`; likewise for `Uint`. -/
theorem ptr_of_wrapper (w : Int) (wu : Uint) (p : Option ℤ) (q : Option ℕ) :
    ((w.Valid = false → w.Ptr = none) ∧ (w.Valid = true → w.Ptr = some w.Int_) ∧
        ((IntFromPtr p).Ptr = none ↔ p = none) ∧
        (∀ v, p = some v → (IntFromPtr p).Ptr = some v)) ∧
      ((wu.Valid = false → wu.Ptr = none) ∧ (wu.Valid = true → wu.Ptr = some wu.Uint_) ∧
        ((UintFromPtr q).Ptr = none ↔ q = none) ∧
        (∀ v, q = some v → (UintFromPtr q).Ptr = some v)) := by
  refine ⟨⟨?_, ?_, ?_, ?_⟩, ⟨?_, ?_, ?_, ?_⟩⟩
  · intro h
    simp [Int.Ptr, h]
  · intro h
    simp [Int.Ptr, h]
  · cases p <;> simp [IntFromPtr, NewInt, Int.Ptr]
  · intro v hv
    subst hv
    rfl
  · intro h
    simp [Uint.Ptr, h]
  · intro h
    simp [Uint.Ptr, h]
  · cases q <;> simp [UintFromPtr, NewUint, Uint.Ptr]
  · intro v hv
    subst hv
    rfl

theorem ptr_of_wrapper_witness :
    Int.Ptr { Int_ := 5, Valid := false, Set := true } = none ∧
      Int.Ptr { Int_ := 5, Valid := true, Set := false } = some 5 ∧
      (IntFromPtr (some 7)).Ptr = some 7 ∧
      Uint.Ptr { Uint_ := 6, Valid := false, Set := true } = none ∧
      Uint.Ptr { Uint_ := 6, Valid := true, Set := false } = some 6 ∧
      (UintFromPtr (some 8)).Ptr = some 8 :=
  ⟨(ptr_of_wrapper { Int_ := 5, Valid := false, Set := true }
      { Uint_ := 6, Valid := false, Set := true } (some 7) (some 8)).1.1 rfl,
    (ptr_of_wrapper { Int_ := 5, Valid := true, Set := false }
      { Uint_ := 6, Valid := true, Set := false } (some 7) (some 8)).1.2.1 rfl,
    (ptr_of_wrapper { Int_ := 5, Valid := true, Set := false }
      { Uint_ := 6, Valid := true, Set := false } (some 7) (some 8)).1.2.2.2 7 rfl,
    (ptr_of_wrapper { Int_ := 5, Valid := false, Set := true }
      { Uint_ := 6, Valid := false, Set := true } (some 7) (some 8)).2.1 rfl,
    (ptr_of_wrapper { Int_ := 5, Valid := true, Set := false }
      { Uint_ := 6, Valid := true, Set := false } (some 7) (some 8)).2.2.1 rfl,
    (ptr_of_wrapper { Int_ := 5, Valid := true, Set := false }
      { Uint_ := 6, Valid := true, Set := false } (some 7) (some 8)).2.2.2.2 8 rfl⟩

/-- C16: on every reachable state `Valid` implies `Set`, for `Int` and `Uint`.  Starting from
the zero-initialized wrapper or from a result of `NewInt`, `IntFrom` or `IntFromPtr` (resp.
the `Uint` constructors), after any sequence of `UnmarshalJSON`, `UnmarshalText`, `SetValid`
and `Scan` calls, with any inputs, failing or not, and any coercion routine, `Valid = true`
implies `Set = true`; hence `IsValid()` equals `Valid`, `IsZero()` is the negation of
`IsValid()`, and `Ptr()`, `Value()`, `MarshalJSON` and `MarshalText` give their null answer
exactly when `IsValid()` is false. -/
theorem valid_implies_set_on_reachable_states {α : Type}
    (ConvertAssign : ℤ → α → ℤ × Option Error) (ConvertAssignU : ℕ → α → ℕ × Option Error)
    (x : ℤ) (n : ℕ) (b : Bool) (p : Option ℤ) (q : Option ℕ) (start : Int) (startU : Uint)
    (hs : start = { Int_ := 0, Valid := false, Set := false } ∨ start = NewInt x b ∨
      start = IntFrom x ∨ start = IntFromPtr p)
    (hsU : startU = { Uint_ := 0, Valid := false, Set := false } ∨ startU = NewUint n b ∨
      startU = UintFrom n ∨ startU = UintFromPtr q)
    (cs : List (IntCall α)) (csU : List (UintCall α)) :
    (∀ s, s = Int.calls ConvertAssign start cs →
        (s.Valid = true → s.Set = true) ∧ s.IsValid = s.Valid ∧ s.IsZero = !s.IsValid ∧
        (s.Ptr = none ↔ s.IsValid = false) ∧
        (s.Value.1 = DriverValue.nil ↔ s.IsValid = false) ∧
        (s.MarshalJSON.1 = NullBytes ↔ s.IsValid = false) ∧
        (s.MarshalText.1 = [] ↔ s.IsValid = false)) ∧
      (∀ s, s = Uint.calls ConvertAssignU startU csU →
        (s.Valid = true → s.Set = true) ∧ s.IsValid = s.Valid ∧ s.IsZero = !s.IsValid ∧
        (s.Ptr = none ↔ s.IsValid = false) ∧
        (s.Value.1 = DriverValue.nil ↔ s.IsValid = false) ∧
        (s.MarshalJSON.1 = NullBytes ↔ s.IsValid = false) ∧
        (s.MarshalText.1 = [] ↔ s.IsValid = false)) := by
  constructor
  · intro s hsd
    have h0 : start.Valid = true → start.Set = true := by
      rcases hs with h | h | h | h
      · rw [h]
        intro hc
        exact Bool.noConfusion hc
      · rw [h]
        intro _
        rfl
      · rw [h]
        intro _
        rfl
      · rw [h]
        intro _
        cases p <;> rfl
    have hinv : s.Valid = true → s.Set = true := by
      rw [hsd]
      exact Int_calls_valid_set ConvertAssign cs start h0
    exact ⟨hinv, Int_null_views s hinv⟩
  · intro s hsd
    have h0 : startU.Valid = true → startU.Set = true := by
      rcases hsU with h | h | h | h
      · rw [h]
        intro hc
        exact Bool.noConfusion hc
      · rw [h]
        intro _
        rfl
      · rw [h]
        intro _
        rfl
      · rw [h]
        intro _
        cases q <;> rfl
    have hinv : s.Valid = true → s.Set = true := by
      rw [hsd]
      exact Uint_calls_valid_set ConvertAssignU csU startU h0
    exact ⟨hinv, Uint_null_views s hinv⟩

theorem valid_implies_set_on_reachable_states_witness :
    Int.calls (fun (_ : ℤ) (v : ℤ) => (v, some Error.ErrRange))
        { Int_ := 0, Valid := false, Set := false }
        [IntCall.SetValid 5, IntCall.Scan none, IntCall.UnmarshalJSON [97, 98, 99],
          IntCall.UnmarshalText [], IntCall.Scan (some 4)]
        = { Int_ := 4, Valid := true, Set := true } ∧
      (Int.calls (fun (_ : ℤ) (v : ℤ) => (v, some Error.ErrRange))
        { Int_ := 0, Valid := false, Set := false }
        [IntCall.SetValid 5, IntCall.Scan none, IntCall.UnmarshalJSON [97, 98, 99],
          IntCall.UnmarshalText [], IntCall.Scan (some 4)]).IsValid = true ∧
      (Uint.calls (fun (_ : ℕ) (v : ℤ) => (v.toNat, some Error.ErrRange))
        (UintFromPtr (some 3))
        [UintCall.Scan none, UintCall.UnmarshalJSON [49, 46, 53]]).IsValid = false :=
  ⟨by decide,
    ((valid_implies_set_on_reachable_states (fun (_ : ℤ) (v : ℤ) => (v, some Error.ErrRange))
      (fun (_ : ℕ) (v : ℤ) => (v.toNat, some Error.ErrRange)) 0 3 true none (some 3)
      { Int_ := 0, Valid := false, Set := false } (UintFromPtr (some 3)) (Or.inl rfl)
      (Or.inr (Or.inr (Or.inr rfl)))
      [IntCall.SetValid 5, IntCall.Scan none, IntCall.UnmarshalJSON [97, 98, 99],
        IntCall.UnmarshalText [], IntCall.Scan (some 4)]
      [UintCall.Scan none, UintCall.UnmarshalJSON [49, 46, 53]]).1 _ rfl).2.1.trans
      (by decide),
    ((valid_implies_set_on_reachable_states (fun (_ : ℤ) (v : ℤ) => (v, some Error.ErrRange))
      (fun (_ : ℕ) (v : ℤ) => (v.toNat, some Error.ErrRange)) 0 3 true none (some 3)
      { Int_ := 0, Valid := false, Set := false } (UintFromPtr (some 3)) (Or.inl rfl)
      (Or.inr (Or.inr (Or.inr rfl)))
      [IntCall.SetValid 5, IntCall.Scan none, IntCall.UnmarshalJSON [97, 98, 99],
        IntCall.UnmarshalText [], IntCall.Scan (some 4)]
      [UintCall.Scan none, UintCall.UnmarshalJSON [49, 46, 53]]).2 _ rfl).2.1.trans
      (by decide)⟩

/-- C17: the JSON round trip of an arbitrary wrapper keeps validity, and keeps the value
only of a valid wrapper, for `Int` and `Uint`.  For every wrapper `w` with arbitrary fields
(its value a 64-bit number; `Valid = false` with a non-zero value and `Set = false` included)
and every prior state of the target, `MarshalJSON(w)` returns no error and `UnmarshalJSON` of
its bytes returns no error and leaves the target with `Set = true`, `Valid` equal to
`w.Valid`, and the value equal to `w`'s when `w.Valid` is true and to `0` when it is false;
the encoding of a valid wrapper is never the null token. -/
theorem json_round_trip_of_any_wrapper (w target : Int) (wu targetU : Uint)
    (hlo : -(2 : ℤ) ^ 63 ≤ w.Int_) (hhi : w.Int_ ≤ 2 ^ 63 - 1) (hu : wu.Uint_ < 2 ^ 64) :
    (w.MarshalJSON.2 = none ∧
        target.UnmarshalJSON w.MarshalJSON.1
          = ({ Int_ := if w.Valid = true then w.Int_ else 0, Valid := w.Valid, Set := true },
              none) ∧
        (w.Valid = true → w.MarshalJSON.1 ≠ NullBytes)) ∧
      (wu.MarshalJSON.2 = none ∧
        targetU.UnmarshalJSON wu.MarshalJSON.1
          = ({ Uint_ := if wu.Valid = true then wu.Uint_ else 0, Valid := wu.Valid,
                Set := true }, none) ∧
        (wu.Valid = true → wu.MarshalJSON.1 ≠ NullBytes)) := by
  constructor
  · have hw := wrapInt64_id w.Int_ hlo hhi
    cases hv : w.Valid
    · have hm : w.MarshalJSON = (NullBytes, none) := by simp [Int.MarshalJSON, hv]
      rw [hm]
      refine ⟨rfl, ?_, fun h => Bool.noConfusion h⟩
      simp [Int.UnmarshalJSON]
    · have hm : w.MarshalJSON = (FormatInt w.Int_, none) := by simp [Int.MarshalJSON, hv, hw]
      rw [hm]
      have hne := FormatInt_ne_null w.Int_ hlo hhi
      refine ⟨rfl, ?_, fun _ => hne⟩
      rw [Int_UnmarshalJSON_of_spec target _ w.Int_ hne (specInt64Literal_FormatInt _ hlo hhi)]
      simp
  · have hw : wu.Uint_ % 18446744073709551616 = wu.Uint_ := by omega
    cases hv : wu.Valid
    · have hm : wu.MarshalJSON = (NullBytes, none) := by simp [Uint.MarshalJSON, hv]
      rw [hm]
      refine ⟨rfl, ?_, fun h => Bool.noConfusion h⟩
      simp [Uint.UnmarshalJSON]
    · have hm : wu.MarshalJSON = (FormatUint wu.Uint_, none) := by
        simp [Uint.MarshalJSON, hv, hw]
      rw [hm]
      have hne := FormatUint_ne_null wu.Uint_ hu
      refine ⟨rfl, ?_, fun _ => hne⟩
      rw [Uint_UnmarshalJSON_of_spec targetU _ wu.Uint_ hne
        (specUint64Literal_FormatUint _ hu)]
      simp

theorem json_round_trip_of_any_wrapper_witness :
    Int.UnmarshalJSON { Int_ := 1, Valid := true, Set := false }
        (Int.MarshalJSON { Int_ := 7, Valid := false, Set := false }).1
        = ({ Int_ := 0, Valid := false, Set := true }, none) ∧
      Uint.UnmarshalJSON { Uint_ := 1, Valid := false, Set := false }
        (Uint.MarshalJSON { Uint_ := 18446744073709551615, Valid := true, Set := false }).1
        = ({ Uint_ := 18446744073709551615, Valid := true, Set := true }, none) :=
  ⟨(json_round_trip_of_any_wrapper { Int_ := 7, Valid := false, Set := false }
      { Int_ := 1, Valid := true, Set := false }
      { Uint_ := 18446744073709551615, Valid := true, Set := false }
      { Uint_ := 1, Valid := false, Set := false } (by decide) (by decide) (by decide)).1.2.1,
    (json_round_trip_of_any_wrapper { Int_ := 7, Valid := false, Set := false }
      { Int_ := 1, Valid := true, Set := false }
      { Uint_ := 18446744073709551615, Valid := true, Set := false }
      { Uint_ := 1, Valid := false, Set := false } (by decide) (by decide) (by decide)).2.2.1⟩


end null
